import Mathlib

/-!
# Conway's Game of Life, serial and MPI-distributed (`gol.c`)

A shallow embedding of `GOL_seriell`, `GOL_parallel` and `GOL_gfx`.

Modelling conventions

* A grid allocated by `malloc2D(_zeilen, _spalten)` is one contiguous block of
  `int`; `array[i]` points at `daten[_spalten * i]`.  A block is a function
  `Nat → Int` from the flat index to the stored value, and `array[i][j]` is the
  value at `_spalten * i + j`.  Every grid of the program has `spielfeld_dim + 2`
  columns.
* Sizes, ranks and indices are natural numbers: the C `int` computations on
  them do not overflow as long as `(spielfeld_dim + 2) * (spielfeld_dim + 2)`
  fits an `int`, which `malloc2D` needs for its own size computation.  Cells are
  `Int`; the cells the program reads are `0` or `1`, so no sum overflows.
* `malloc` does not clear memory: the initial content of every block is a
  parameter (`roh...`).  The values returned by `rand()` are a parameter too,
  indexed by the cell they are drawn for.
* `MPI_PROC_NULL` is `none`.  An MPI call naming a rank outside the
  communicator, a receive nobody sends to, and a row pointer read outside the
  pointer table of a grid give no result (`none`).
  `GOL_parallel_daten` is the same run with the assembly `sammeln_daten`, which
  does not test the row pointers: the only pointer read outside the table is
  that for a band without rows, and the receive of its `0` ints stores nothing.
* The processes run the same generation in lockstep: a generation of the
  distributed program is one function on the family of all processes.
-/

namespace GOL

/-! ## Memory -/

/-- The `daten` block of a `malloc2D` grid, by flat index. -/
abbrev Speicher := Nat → Int

/-- Flat index of `array[i][j]` in a grid with `dim + 2` columns. -/
def adr (dim i j : Nat) : Nat := (dim + 2) * i + j

/-- Read `array[i][j]`. -/
def lies (dim : Nat) (m : Speicher) (i j : Nat) : Int := m (adr dim i j)

/-- Store `v` at flat index `a`. -/
def schreibe (m : Speicher) (a : Nat) (v : Int) : Speicher :=
  fun b => if b = a then v else m b

/-- The `anzahl` ints found from `&array[zeile][0]` on (a send buffer). -/
def block_lesen (dim : Nat) (m : Speicher) (zeile : Nat) : Nat → Int :=
  fun k => m ((dim + 2) * zeile + k)

/-- Store `anzahl` received ints from flat index `basis` on (a receive buffer,
or the target of `memcpy`). -/
def block_schreiben (m : Speicher) (basis anzahl : Nat) (daten : Nat → Int) : Speicher :=
  fun b => if basis ≤ b ∧ b < basis + anzahl then daten (b - basis) else m b

/-- The loop `for (i = lo; i < lo + n; i++) body`, acting on one block. -/
def schleife (lo n : Nat) (body : Nat → Speicher → Speicher) (m : Speicher) : Speicher :=
  (List.range' lo n).foldl (fun acc i => body i acc) m

/-! ## Partition (`GOL_parallel`, lines 254-261) -/

/-- Rank of the coordinator. -/
def ROOT : Nat := 0

/-- Number of rows owned by `my_rank`. -/
def my_size (spielfeld_dim nprocs my_rank : Nat) : Nat :=
  spielfeld_dim / nprocs + (if my_rank < spielfeld_dim % nprocs then 1 else 0)

/-- Number of ints in the owned rows, side columns included. -/
def my_elements (spielfeld_dim nprocs my_rank : Nat) : Nat :=
  my_size spielfeld_dim nprocs my_rank * (spielfeld_dim + 2)

/-- First row of the band of `my_rank` in the full grid. -/
def my_offset (spielfeld_dim nprocs my_rank : Nat) : Nat :=
  my_rank * (spielfeld_dim / nprocs)
    + (if my_rank > spielfeld_dim % nprocs then spielfeld_dim % nprocs else my_rank)

/-! ## The update rule (lines 345-360 and 453-468) -/

/-- Sum over the eight neighbours of cell `(i, j)`. -/
def nachbarn (dim : Nat) (sp : Speicher) (i j : Nat) : Int :=
  lies dim sp (i - 1) (j - 1) + lies dim sp (i - 1) j + lies dim sp (i - 1) (j + 1)
    + lies dim sp i (j - 1) + lies dim sp i (j + 1)
    + lies dim sp (i + 1) (j - 1) + lies dim sp (i + 1) j + lies dim sp (i + 1) (j + 1)

/-- Body of the inner loop: decide cell `(i, j)` from `sp` and store it in `zw`. -/
def zelle (dim : Nat) (sp : Speicher) (i j : Nat) (zw : Speicher) : Speicher :=
  if nachbarn dim sp i j < 2 ∨ nachbarn dim sp i j > 3 then
    schreibe zw (adr dim i j) 0
  else if nachbarn dim sp i j = 3 then
    schreibe zw (adr dim i j) 1
  else
    schreibe zw (adr dim i j) (lies dim sp i j)

/-- The two nested loops over rows `1..zeilen` and columns `1..dim`. -/
def update (zeilen dim : Nat) (sp zw : Speicher) : Speicher :=
  schleife 1 zeilen (fun i acc => schleife 1 dim (fun j acc2 => zelle dim sp i j acc2) acc) zw

/-- Update loops of `GOL_seriell`: `i` and `j` run from `1` to `spielfeld_dim`. -/
def GOL_seriell_update (spielfeld_dim : Nat) (voll_spielfeld voll_zwischen : Speicher) :
    Speicher :=
  update spielfeld_dim spielfeld_dim voll_spielfeld voll_zwischen

/-- Update loops of `GOL_parallel` on one process: `i` runs from `1` to `my_size`. -/
def GOL_parallel_update (spielfeld_dim nprocs my_rank : Nat)
    (my_spielfeld my_zwischen : Speicher) : Speicher :=
  update (my_size spielfeld_dim nprocs my_rank) spielfeld_dim my_spielfeld my_zwischen

/-- The value the rule stores for cell `(i, j)`. -/
def regel (dim : Nat) (sp : Speicher) (i j : Nat) : Int :=
  if nachbarn dim sp i j < 2 ∨ nachbarn dim sp i j > 3 then 0
  else if nachbarn dim sp i j = 3 then 1
  else lies dim sp i j

/-! ## Initialisation (lines 299-312 and 432-445) -/

/-- The two border loops for one grid of `zeilen + 2` rows: first column `0` and
column `dim + 1` of every row, then row `0` and row `zeilen + 1` in every
column, all set to `0`. -/
def rand_nullen (zeilen dim : Nat) (m : Speicher) : Speicher :=
  schleife 0 (dim + 2)
    (fun j acc => schreibe (schreibe acc (adr dim (zeilen + 1) j) 0) (adr dim 0 j) 0)
    (schleife 0 (zeilen + 2)
      (fun i acc => schreibe (schreibe acc (adr dim i (dim + 1)) 0) (adr dim i 0) 0) m)

/-- The seeding loops: cell `(i, j)` of rows `1..zeilen`, columns `1..dim`
becomes `rand() % 2`, where `zufall i j` is the value `rand()` returns for it. -/
def saat (zeilen dim : Nat) (zufall : Nat → Nat → Nat) (m : Speicher) : Speicher :=
  schleife 1 zeilen
    (fun i acc => schleife 1 dim
      (fun j acc2 => schreibe acc2 (adr dim i j) ((zufall i j % 2 : Nat) : Int)) acc) m

/-! ## The serial program -/

/-- The two grids of `GOL_seriell`. -/
structure Seriell where
  /-- Current generation. -/
  voll_spielfeld : Speicher
  /-- Buffer the next generation is written to. -/
  voll_zwischen : Speicher

/-- State of `GOL_seriell` when the generation loop starts. -/
def GOL_seriell_init (spielfeld_dim : Nat) (roh_spielfeld roh_zwischen : Speicher)
    (zufall : Nat → Nat → Nat) : Seriell where
  voll_spielfeld :=
    saat spielfeld_dim spielfeld_dim zufall (rand_nullen spielfeld_dim spielfeld_dim roh_spielfeld)
  voll_zwischen := rand_nullen spielfeld_dim spielfeld_dim roh_zwischen

/-- One pass of the generation loop of `GOL_seriell`: update, then exchange the
two pointers. -/
def GOL_seriell_runde (spielfeld_dim : Nat) (s : Seriell) : Seriell where
  voll_spielfeld := GOL_seriell_update spielfeld_dim s.voll_spielfeld s.voll_zwischen
  voll_zwischen := s.voll_spielfeld

/-- The generation loop of `GOL_seriell`, `_runden` passes. -/
def GOL_seriell_lauf (spielfeld_dim : Nat) : Nat → Seriell → Seriell
  | 0, s => s
  | k + 1, s => GOL_seriell_runde spielfeld_dim (GOL_seriell_lauf spielfeld_dim k s)

/-- The grids of `GOL_seriell` after `_runden` generations. -/
def GOL_seriell (spielfeld_dim _runden : Nat) (roh_spielfeld roh_zwischen : Speicher)
    (zufall : Nat → Nat → Nat) : Seriell :=
  GOL_seriell_lauf spielfeld_dim _runden
    (GOL_seriell_init spielfeld_dim roh_spielfeld roh_zwischen zufall)

/-! ## The distributed program -/

/-- The two grids of one process of `GOL_parallel`. -/
structure Proc where
  /-- Current generation of the band, with its two ghost rows. -/
  my_spielfeld : Speicher
  /-- Buffer the next generation is written to. -/
  my_zwischen : Speicher

/-- All processes by rank, and the full grid `voll` of `ROOT`. -/
structure Zustand where
  /-- The process of every rank below `nprocs`. -/
  welt : Nat → Proc
  /-- The full grid of the coordinator: `spielfeld_dim` rows. -/
  voll : Speicher

/-- The four neighbour variables; `none` is `MPI_PROC_NULL`. -/
structure Nachbar where
  /-- Destination of the first owned row. -/
  sende_oben : Option Nat
  /-- Destination of the last owned row. -/
  sende_unten : Option Nat
  /-- Source for ghost row `0`. -/
  hole_oben : Option Nat
  /-- Source for ghost row `my_size + 1`. -/
  hole_unten : Option Nat

/-- Neighbour assignment, lines 243-252. -/
def nachbar_bestimmen (nprocs my_rank : Nat) : Nachbar :=
  if my_rank = ROOT then
    { sende_oben := none, hole_oben := none,
      sende_unten := some (my_rank + 1), hole_unten := some (my_rank + 1) }
  else if my_rank = nprocs - 1 then
    { sende_unten := none, hole_unten := none,
      sende_oben := some (nprocs - 2), hole_oben := some (nprocs - 2) }
  else
    { sende_oben := some (my_rank - 1), hole_oben := some (my_rank - 1),
      sende_unten := some (my_rank + 1), hole_unten := some (my_rank + 1) }

/-- A rank argument an MPI call accepts: `MPI_PROC_NULL` or a rank of the
communicator. -/
def rang_ok (nprocs : Nat) : Option Nat → Bool
  | none => true
  | some q => decide (q < nprocs)

/-- The row rank `q` sends to rank `r` in one exchange: the first of its two
`MPI_Isend` (row `1` to `sende_oben`, then row `my_size` to `sende_unten`) whose
destination is `r`. -/
def gesendete_zeile (dim nprocs q r : Nat) : Option Nat :=
  if (nachbar_bestimmen nprocs q).sende_oben = some r then some 1
  else if (nachbar_bestimmen nprocs q).sende_unten = some r then
    some (my_size dim nprocs q)
  else none

/-- One `MPI_Irecv` of `dim + 2` ints into `&m[zeile][0]` at rank `r`, completed
by `MPI_Waitall`.  From `MPI_PROC_NULL` nothing arrives and `m` is unchanged.
The data are the sender's row as it is when the exchange starts. -/
def empfange (dim nprocs : Nat) (welt : Nat → Proc) (r : Nat) (quelle : Option Nat)
    (zeile : Nat) (m : Speicher) : Option Speicher :=
  match quelle with
  | none => some m
  | some q =>
    if q < nprocs then
      match gesendete_zeile dim nprocs q r with
      | some z =>
        some (block_schreiben m ((dim + 2) * zeile) (dim + 2)
          (block_lesen dim (welt q).my_spielfeld z))
      | none => none
    else none

/-- Lines 323-331 on rank `r`: the current grid after the halo exchange. -/
def austausch_rang (dim nprocs : Nat) (welt : Nat → Proc) (r : Nat) : Option Speicher :=
  if rang_ok nprocs (nachbar_bestimmen nprocs r).sende_oben
      ∧ rang_ok nprocs (nachbar_bestimmen nprocs r).sende_unten then
    (empfange dim nprocs welt r (nachbar_bestimmen nprocs r).hole_oben 0
        (welt r).my_spielfeld).bind
      (empfange dim nprocs welt r (nachbar_bestimmen nprocs r).hole_unten
        (my_size dim nprocs r + 1))
  else none

/-- The halo exchange of one generation on all ranks. -/
def austausch (dim nprocs : Nat) (welt : Nat → Proc) : Option (Nat → Proc) :=
  if (List.range nprocs).all (fun r => (austausch_rang dim nprocs welt r).isSome) then
    some (fun r =>
      if r < nprocs then
        match austausch_rang dim nprocs welt r with
        | some m => { my_spielfeld := m, my_zwischen := (welt r).my_zwischen }
        | none => welt r
      else welt r)
  else none

/-- Lines 345-365 on all ranks: local update, then exchange of the two pointers. -/
def rechnen (dim nprocs : Nat) (welt : Nat → Proc) : Nat → Proc :=
  fun r =>
    if r < nprocs then
      { my_spielfeld :=
          GOL_parallel_update dim nprocs r (welt r).my_spielfeld (welt r).my_zwischen
        my_zwischen := (welt r).my_spielfeld }
    else welt r

/-- Lines 375-384: `ROOT` receives the owned rows of ranks `1..nprocs-1` at
`&voll[all_offset[i]][0]`, then copies its own.  `voll` has `dim` rows, so a
row pointer `voll[z]` exists for `z < dim` only. -/
def sammeln (dim nprocs : Nat) (welt : Nat → Proc) (voll : Speicher) : Option Speicher :=
  if (List.range' 1 (nprocs - 1)).all (fun i => decide (my_offset dim nprocs i < dim))
      ∧ 0 < dim then
    some (block_schreiben
      (schleife 1 (nprocs - 1)
        (fun i acc => block_schreiben acc ((dim + 2) * my_offset dim nprocs i)
          (my_elements dim nprocs i) (block_lesen dim (welt i).my_spielfeld 1)) voll)
      ((dim + 2) * 0) (my_elements dim nprocs ROOT)
      (block_lesen dim (welt ROOT).my_spielfeld 1))
  else none

/-- One pass of the generation loop of `GOL_parallel`. -/
def GOL_parallel_runde (dim nprocs : Nat) (s : Zustand) : Option Zustand :=
  match austausch dim nprocs s.welt with
  | none => none
  | some w =>
    match sammeln dim nprocs (rechnen dim nprocs w) s.voll with
    | none => none
    | some v => some { welt := rechnen dim nprocs w, voll := v }

/-- The generation loop of `GOL_parallel`, `_runden` passes. -/
def GOL_parallel_lauf (dim nprocs : Nat) : Nat → Zustand → Option Zustand
  | 0, s => some s
  | k + 1, s => (GOL_parallel_lauf dim nprocs k s).bind (GOL_parallel_runde dim nprocs)

/-- State of `GOL_parallel` when the generation loop starts.  `zufall r i j` is
the value `rand()` returns on rank `r` for its local cell `(i, j)`. -/
def GOL_parallel_init (dim nprocs : Nat) (roh : Nat → Proc) (roh_voll : Speicher)
    (zufall : Nat → Nat → Nat → Nat) : Zustand where
  welt := fun r =>
    { my_spielfeld :=
        saat (my_size dim nprocs r) dim (zufall r)
          (rand_nullen (my_size dim nprocs r) dim (roh r).my_spielfeld)
      my_zwischen := rand_nullen (my_size dim nprocs r) dim (roh r).my_zwischen }
  voll := roh_voll

/-- The processes and the full grid after `_runden` generations of
`GOL_parallel`, if the run gets that far. -/
def GOL_parallel (spielfeld_dim nprocs _runden : Nat) (roh : Nat → Proc)
    (roh_voll : Speicher) (zufall : Nat → Nat → Nat → Nat) : Option Zustand :=
  GOL_parallel_lauf spielfeld_dim nprocs _runden
    (GOL_parallel_init spielfeld_dim nprocs roh roh_voll zufall)

/-! ## Properties of grids used in the invariants -/

/-- Both border columns are `0` in the rows `0..zeilen+1`. -/
def spalten_tot (zeilen dim : Nat) (m : Speicher) : Prop :=
  ∀ i, i ≤ zeilen + 1 → lies dim m i 0 = 0 ∧ lies dim m i (dim + 1) = 0

/-- Row `i` is `0` in the columns `0..dim+1`. -/
def zeile_tot (dim : Nat) (m : Speicher) (i : Nat) : Prop :=
  ∀ j, j ≤ dim + 1 → lies dim m i j = 0

/-- The border of a grid with `zeilen + 2` rows is `0`. -/
def rand_tot (zeilen dim : Nat) (m : Speicher) : Prop :=
  spalten_tot zeilen dim m ∧ zeile_tot dim m 0 ∧ zeile_tot dim m (zeilen + 1)

/-- The sentinel cells of all processes are `0`: the border columns of both grids
of every rank, row `0` on rank `0`, row `my_size + 1` on the last rank. -/
def welt_rand_tot (dim nprocs : Nat) (welt : Nat → Proc) : Prop :=
  ∀ r, r < nprocs →
    spalten_tot (my_size dim nprocs r) dim (welt r).my_spielfeld ∧
    spalten_tot (my_size dim nprocs r) dim (welt r).my_zwischen ∧
    (r = 0 → zeile_tot dim (welt r).my_spielfeld 0 ∧ zeile_tot dim (welt r).my_zwischen 0) ∧
    (r + 1 = nprocs →
      zeile_tot dim (welt r).my_spielfeld (my_size dim nprocs r + 1) ∧
      zeile_tot dim (welt r).my_zwischen (my_size dim nprocs r + 1))

/-- The owned rows of every rank are the rows of `sp` at the offset of the rank. -/
def baender_gleich (dim nprocs : Nat) (welt : Nat → Proc) (sp : Speicher) : Prop :=
  ∀ r, r < nprocs → ∀ i, 1 ≤ i → i ≤ my_size dim nprocs r → ∀ j, j ≤ dim + 1 →
    lies dim (welt r).my_spielfeld i j = lies dim sp (my_offset dim nprocs r + i) j


/-! ## Rendering (`GOL_gfx`, lines 516-536) -/

/-- The squares `GOL_gfx` paints after clearing the surface, in painting order,
each by its upper left corner `(cell.y, cell.x)`.  `cell_h` is the side of a
square (`cell.w = cell.h = _cell_h`); `spielfeld` has `_dim + 2` columns. -/
def GOL_gfx (cell_h : Nat) (spielfeld : Speicher) (_dim : Nat) : List (Nat × Nat) :=
  (List.range' 1 (_dim - 1)).foldl
    (fun surf i =>
      (List.range' 1 (_dim - 1)).foldl
        (fun surf2 j =>
          if lies _dim spielfeld i j = 1 then
            surf2 ++ [((i - 1) * cell_h, (j - 1) * cell_h)]
          else surf2)
        surf)
    []

/-! ## Grids given by a table -/

/-- A block whose cell `(i, j)` is `T i j`. -/
def speicher_von (dim : Nat) (T : Nat → Nat → Int) : Speicher :=
  fun a => T (a / (dim + 2)) (a % (dim + 2))

/-- The table with `1` at the cells of `l` and `0` elsewhere. -/
def tabelle (l : List (Nat × Nat)) : Nat → Nat → Int :=
  fun i j => if (i, j) ∈ l then 1 else 0

/-- Values of `rand()` that seed exactly the cells of `l` alive. -/
def saat_von (l : List (Nat × Nat)) : Nat → Nat → Nat :=
  fun i j => if (i, j) ∈ l then 1 else 0

/-- The glider in the central `3 x 3` block of a `5 x 5` grid, and its next
three generations. -/
def glider : Nat → List (Nat × Nat)
  | 0 => [(2, 3), (3, 4), (4, 2), (4, 3), (4, 4)]
  | 1 => [(3, 2), (3, 4), (4, 3), (4, 4), (5, 3)]
  | 2 => [(3, 4), (4, 2), (4, 4), (5, 3), (5, 4)]
  | _ => [(3, 3), (4, 4), (4, 5), (5, 3), (5, 4)]

/-- The glider of generation `0` moved one row down and one column to the right. -/
def glider_verschoben : List (Nat × Nat) :=
  (glider 0).map (fun p => (p.1 + 1, p.2 + 1))

/-- The grid the assembly leaves in `voll`, lines 375-384, without the test of
`sammeln` on the row pointers.  `MPI_Recv` stores `all_elements[i]` ints from
the address it is given.  A band without rows has `all_elements[i] = 0`, so the
receive stores nothing, whatever address the read of `voll[all_offset[i]]`
yields; a band with rows has its row pointers inside `voll`. -/
def sammeln_daten (dim nprocs : Nat) (welt : Nat → Proc) (voll : Speicher) : Speicher :=
  block_schreiben
    (schleife 1 (nprocs - 1)
      (fun i acc => block_schreiben acc ((dim + 2) * my_offset dim nprocs i)
        (my_elements dim nprocs i) (block_lesen dim (welt i).my_spielfeld 1)) voll)
    ((dim + 2) * 0) (my_elements dim nprocs ROOT)
    (block_lesen dim (welt ROOT).my_spielfeld 1)

/-- One pass of the generation loop of `GOL_parallel` with the assembly
`sammeln_daten`: halo exchange, local updates, exchange of the pointers,
assembly. -/
def GOL_parallel_runde_daten (dim nprocs : Nat) (s : Zustand) : Option Zustand :=
  match austausch dim nprocs s.welt with
  | none => none
  | some w =>
    some { welt := rechnen dim nprocs w
           voll := sammeln_daten dim nprocs (rechnen dim nprocs w) s.voll }

/-- The generation loop with the assembly `sammeln_daten`, `_runden` passes. -/
def GOL_parallel_lauf_daten (dim nprocs : Nat) : Nat → Zustand → Option Zustand
  | 0, s => some s
  | k + 1, s =>
    (GOL_parallel_lauf_daten dim nprocs k s).bind (GOL_parallel_runde_daten dim nprocs)

/-- The processes and the full grid after `_runden` generations of
`GOL_parallel`, with the assembly `sammeln_daten`. -/
def GOL_parallel_daten (spielfeld_dim nprocs _runden : Nat) (roh : Nat → Proc)
    (roh_voll : Speicher) (zufall : Nat → Nat → Nat → Nat) : Option Zustand :=
  GOL_parallel_lauf_daten spielfeld_dim nprocs _runden
    (GOL_parallel_init spielfeld_dim nprocs roh roh_voll zufall)

/-- Row `1` of both grids of every rank without rows, its lower ghost row,
is `0`. -/
def leere_baender_tot (dim nprocs : Nat) (welt : Nat → Proc) : Prop :=
  ∀ r, r < nprocs → my_size dim nprocs r = 0 →
    zeile_tot dim (welt r).my_spielfeld 1 ∧ zeile_tot dim (welt r).my_zwischen 1

/-! ## Arithmetic of flat indices -/

theorem adr_lt_iff (dim i j k : Nat) (hj : j ≤ dim + 1) :
    adr dim i j < (dim + 2) * k ↔ i < k := by
  unfold adr
  constructor
  · intro h
    by_contra hc
    have hki : k ≤ i := Nat.le_of_not_lt hc
    have := Nat.mul_le_mul_left (dim + 2) hki
    omega
  · intro h
    have := Nat.mul_le_mul_left (dim + 2) (Nat.succ_le_of_lt h)
    rw [Nat.mul_succ] at this
    omega

theorem adr_ge_iff (dim i j k : Nat) (hj : j ≤ dim + 1) :
    (dim + 2) * k ≤ adr dim i j ↔ k ≤ i := by
  have h := adr_lt_iff dim i j k hj
  constructor
  · intro h1
    by_contra hc
    have := h.mpr (Nat.lt_of_not_le hc)
    omega
  · intro h1
    by_contra hc
    have := h.mp (Nat.lt_of_not_le hc)
    omega

theorem adr_inj (dim i j i2 j2 : Nat) (hj : j ≤ dim + 1) (hj2 : j2 ≤ dim + 1)
    (h : adr dim i j = adr dim i2 j2) : i = i2 ∧ j = j2 := by
  have h1 : i = i2 := by
    have a := adr_ge_iff dim i j i2 hj
    have b := adr_ge_iff dim i2 j2 i hj2
    have c : (dim + 2) * i2 ≤ adr dim i j := by rw [h]; unfold adr; omega
    have d : (dim + 2) * i ≤ adr dim i2 j2 := by rw [← h]; unfold adr; omega
    have := a.mp c
    have := b.mp d
    omega
  subst h1
  unfold adr at h
  exact ⟨rfl, by omega⟩


/-! ## Loops that store into one block -/

theorem foldl_keep {ι : Type} (body : ι → Speicher → Speicher) (b : Nat) :
    ∀ (l : List ι) (m : Speicher), (∀ i ∈ l, ∀ acc, body i acc b = acc b) →
      (l.foldl (fun acc i => body i acc) m) b = m b := by
  intro l
  induction l with
  | nil => intro m _; rfl
  | cons x xs ih =>
    intro m h
    rw [List.foldl_cons, ih _ (fun i hi => h i (List.mem_cons_of_mem _ hi))]
    exact h x (List.mem_cons_self _ _) m

theorem foldl_const {ι : Type} (body : ι → Speicher → Speicher) (b : Nat) (v : Int) :
    ∀ (l : List ι) (m : Speicher),
      (∀ i ∈ l, (∀ acc, body i acc b = acc b) ∨ (∀ acc, body i acc b = v)) →
      m b = v → (l.foldl (fun acc i => body i acc) m) b = v := by
  intro l
  induction l with
  | nil => intro m _ hm; exact hm
  | cons x xs ih =>
    intro m h hm
    rw [List.foldl_cons]
    apply ih _ (fun i hi => h i (List.mem_cons_of_mem _ hi))
    rcases h x (List.mem_cons_self _ _) with hk | hs
    · rw [hk, hm]
    · exact hs m

theorem foldl_set {ι : Type} (body : ι → Speicher → Speicher) (b : Nat) (v : Int) :
    ∀ (l : List ι) (m : Speicher) (k : ι), k ∈ l → (∀ acc, body k acc b = v) →
      (∀ i ∈ l, (∀ acc, body i acc b = acc b) ∨ (∀ acc, body i acc b = v)) →
      (l.foldl (fun acc i => body i acc) m) b = v := by
  intro l
  induction l with
  | nil => intro m k hk; cases hk
  | cons x xs ih =>
    intro m k hk hset h
    rw [List.foldl_cons]
    rcases List.mem_cons.mp hk with hx | hx
    · subst hx
      exact foldl_const body b v xs _ (fun i hi => h i (List.mem_cons_of_mem _ hi)) (hset m)
    · exact ih _ k hx hset (fun i hi => h i (List.mem_cons_of_mem _ hi))

theorem schleife_keep (lo n : Nat) (body : Nat → Speicher → Speicher) (m : Speicher) (b : Nat)
    (h : ∀ i, lo ≤ i → i < lo + n → ∀ acc, body i acc b = acc b) :
    schleife lo n body m b = m b := by
  unfold schleife
  apply foldl_keep
  intro i hi
  rw [List.mem_range'_1] at hi
  exact h i hi.1 hi.2

theorem schleife_set (lo n : Nat) (body : Nat → Speicher → Speicher) (m : Speicher) (b : Nat)
    (v : Int) (k : Nat) (hk1 : lo ≤ k) (hk2 : k < lo + n) (hset : ∀ acc, body k acc b = v)
    (h : ∀ i, lo ≤ i → i < lo + n →
      (∀ acc, body i acc b = acc b) ∨ (∀ acc, body i acc b = v)) :
    schleife lo n body m b = v := by
  unfold schleife
  apply foldl_set body b v _ m k (List.mem_range'_1.mpr ⟨hk1, hk2⟩) hset
  intro i hi
  rw [List.mem_range'_1] at hi
  exact h i hi.1 hi.2

theorem schleife_const (lo n : Nat) (body : Nat → Speicher → Speicher) (m : Speicher) (b : Nat)
    (v : Int) (hm : m b = v)
    (h : ∀ i, lo ≤ i → i < lo + n →
      (∀ acc, body i acc b = acc b) ∨ (∀ acc, body i acc b = v)) :
    schleife lo n body m b = v := by
  unfold schleife
  apply foldl_const body b v _ m _ hm
  intro i hi
  rw [List.mem_range'_1] at hi
  exact h i hi.1 hi.2

theorem schreibe_same (m : Speicher) (a : Nat) (v : Int) : schreibe m a v a = v := by
  simp [schreibe]

theorem schreibe_other (m : Speicher) (a b : Nat) (v : Int) (h : b ≠ a) :
    schreibe m a v b = m b := by
  simp [schreibe, h]

/-! ## The update loops, cell by cell -/

theorem zelle_eq (dim : Nat) (sp : Speicher) (i j : Nat) (zw : Speicher) :
    zelle dim sp i j zw = schreibe zw (adr dim i j) (regel dim sp i j) := by
  unfold zelle regel
  split_ifs <;> rfl

/-- Two nested loops that store `val i j` in cell `(i, j)`: an interior cell. -/
theorem doppel_innen (zeilen dim : Nat) (val : Nat → Nat → Int) (zw : Speicher) (i j : Nat)
    (hi1 : 1 ≤ i) (hi2 : i ≤ zeilen) (hj1 : 1 ≤ j) (hj2 : j ≤ dim) :
    schleife 1 zeilen
      (fun i acc => schleife 1 dim (fun j acc2 => schreibe acc2 (adr dim i j) (val i j)) acc)
      zw (adr dim i j) = val i j := by
  have inner : ∀ acc : Speicher,
      schleife 1 dim (fun j2 acc2 => schreibe acc2 (adr dim i j2) (val i j2)) acc (adr dim i j)
        = val i j := by
    intro acc
    apply schleife_set 1 dim _ acc _ _ j hj1 (by omega)
    · intro acc2
      rw [schreibe_same]
    · intro j2 h1 h2
      by_cases hjj : j2 = j
      · right; intro acc2; rw [hjj, schreibe_same]
      · left; intro acc2
        rw [schreibe_other]
        intro hc
        exact hjj (adr_inj dim i j i j2 (by omega) (by omega) hc).2.symm
  apply schleife_set 1 zeilen _ zw _ _ i hi1 (by omega) inner
  intro i2 h1 h2
  by_cases hii : i2 = i
  · right
    rw [hii]
    exact inner
  · left; intro acc
    apply schleife_keep
    intro j2 h1 h2 acc2
    rw [schreibe_other]
    intro hc
    exact hii (adr_inj dim i j i2 j2 (by omega) (by omega) hc).1.symm

/-- Two nested loops that store in cell `(i, j)`: any other flat index. -/
theorem doppel_sonst (zeilen dim : Nat) (val : Nat → Nat → Int) (zw : Speicher) (b : Nat)
    (h : ∀ i j, 1 ≤ i → i ≤ zeilen → 1 ≤ j → j ≤ dim → b ≠ adr dim i j) :
    schleife 1 zeilen
      (fun i acc => schleife 1 dim (fun j acc2 => schreibe acc2 (adr dim i j) (val i j)) acc)
      zw b = zw b := by
  apply schleife_keep
  intro i h1 h2 acc
  apply schleife_keep
  intro j h3 h4 acc2
  rw [schreibe_other]
  exact h i j h1 (by omega) h3 (by omega)

theorem update_eq (zeilen dim : Nat) (sp zw : Speicher) :
    update zeilen dim sp zw =
      schleife 1 zeilen
        (fun i acc => schleife 1 dim
          (fun j acc2 => schreibe acc2 (adr dim i j) (regel dim sp i j)) acc) zw := by
  unfold update
  simp only [zelle_eq]

/-- An interior cell holds the value of the rule after the update loops. -/
theorem update_innen (zeilen dim : Nat) (sp zw : Speicher) (i j : Nat)
    (hi1 : 1 ≤ i) (hi2 : i ≤ zeilen) (hj1 : 1 ≤ j) (hj2 : j ≤ dim) :
    lies dim (update zeilen dim sp zw) i j = regel dim sp i j := by
  unfold lies
  rw [update_eq]
  exact doppel_innen zeilen dim (regel dim sp) zw i j hi1 hi2 hj1 hj2

/-- The update loops store at the flat indices of interior cells only. -/
theorem update_sonst (zeilen dim : Nat) (sp zw : Speicher) (b : Nat)
    (h : ∀ i j, 1 ≤ i → i ≤ zeilen → 1 ≤ j → j ≤ dim → b ≠ adr dim i j) :
    update zeilen dim sp zw b = zw b := by
  rw [update_eq]
  exact doppel_sonst zeilen dim (regel dim sp) zw b h

/-- A cell of the border columns or of a row outside `1..zeilen` keeps its value. -/
theorem update_aussen (zeilen dim : Nat) (sp zw : Speicher) (i j : Nat) (hj : j ≤ dim + 1)
    (h : i = 0 ∨ zeilen < i ∨ j = 0 ∨ j = dim + 1) :
    lies dim (update zeilen dim sp zw) i j = lies dim zw i j := by
  unfold lies
  apply update_sonst
  intro i2 j2 h1 h2 h3 h4 hc
  have := adr_inj dim i j i2 j2 hj (by omega) hc
  omega

/-! ## Partition arithmetic -/

theorem summe_my_size (D P : Nat) (n : Nat) :
    ∑ r in Finset.range n, my_size D P r = n * (D / P) + min n (D % P) := by
  induction n with
  | zero => simp
  | succ n ih =>
    rw [Finset.sum_range_succ, ih]
    unfold my_size
    rw [Nat.succ_mul]
    split_ifs with h <;> omega

theorem my_offset_eq (D P r : Nat) : my_offset D P r = r * (D / P) + min r (D % P) := by
  unfold my_offset
  split_ifs with h <;> omega

theorem my_offset_succ (D P r : Nat) :
    my_offset D P (r + 1) = my_offset D P r + my_size D P r := by
  rw [my_offset_eq, my_offset_eq]
  unfold my_size
  rw [Nat.succ_mul]
  split_ifs with h <;> omega

theorem my_offset_nprocs (D P : Nat) (hP : 1 ≤ P) : my_offset D P P = D := by
  rw [my_offset_eq]
  have h1 : D % P < P := Nat.mod_lt _ (by omega)
  have h2 := Nat.div_add_mod D P
  rw [Nat.min_eq_right (by omega)]
  exact h2

theorem my_offset_mono (D P : Nat) : ∀ r s, r ≤ s → my_offset D P r ≤ my_offset D P s := by
  intro r s h
  induction s with
  | zero =>
    have : r = 0 := by omega
    rw [this]
  | succ s ih =>
    by_cases hrs : r = s + 1
    · rw [hrs]
    · have := ih (by omega)
      rw [my_offset_succ]
      omega

theorem my_size_pos (D P r : Nat) (hP : 1 ≤ P) (hPD : P ≤ D) : 1 ≤ my_size D P r := by
  unfold my_size
  have : 1 ≤ D / P := (Nat.one_le_div_iff (by omega)).mpr hPD
  omega


/-! ## Initialisation, cell by cell -/

theorem null_schleife_set (lo n : Nat) (a1 a2 : Nat → Nat) (m : Speicher) (b : Nat) (k : Nat)
    (hk1 : lo ≤ k) (hk2 : k < lo + n) (hb : b = a1 k ∨ b = a2 k) :
    schleife lo n (fun i acc => schreibe (schreibe acc (a1 i) 0) (a2 i) 0) m b = 0 := by
  apply schleife_set lo n _ m b 0 k hk1 hk2
  · intro acc
    simp only [schreibe]
    split_ifs <;> first | rfl | omega
  · intro i _ _
    by_cases h : b = a1 i ∨ b = a2 i
    · right; intro acc
      simp only [schreibe]
      split_ifs <;> first | rfl | omega
    · left; intro acc
      simp only [schreibe]
      split_ifs <;> first | rfl | omega

theorem null_schleife_const (lo n : Nat) (a1 a2 : Nat → Nat) (m : Speicher) (b : Nat)
    (hm : m b = 0) :
    schleife lo n (fun i acc => schreibe (schreibe acc (a1 i) 0) (a2 i) 0) m b = 0 := by
  apply schleife_const lo n _ m b 0 hm
  intro i _ _
  by_cases h : b = a1 i ∨ b = a2 i
  · right; intro acc
    simp only [schreibe]
    split_ifs <;> first | rfl | omega
  · left; intro acc
    simp only [schreibe]
    split_ifs <;> first | rfl | omega

/-- After the border loops every border cell of the grid is `0`. -/
theorem rand_nullen_rand (zeilen dim : Nat) (m : Speicher) (i j : Nat)
    (hi : i ≤ zeilen + 1) (hj : j ≤ dim + 1)
    (h : i = 0 ∨ i = zeilen + 1 ∨ j = 0 ∨ j = dim + 1) :
    lies dim (rand_nullen zeilen dim m) i j = 0 := by
  unfold lies rand_nullen
  by_cases hrow : i = 0 ∨ i = zeilen + 1
  · apply null_schleife_set 0 (dim + 2) _ _ _ _ j (by omega) (by omega)
    rcases hrow with h0 | h1
    · right; rw [h0]
    · left; rw [h1]
  · apply null_schleife_const
    apply null_schleife_set 0 (zeilen + 2) _ _ _ _ i (by omega) (by omega)
    rcases h with h | h | h | h
    · exact absurd (Or.inl h) hrow
    · exact absurd (Or.inr h) hrow
    · right; rw [h]
    · left; rw [h]

/-- The seeding loops give an interior cell the value `rand() % 2`. -/
theorem saat_innen (zeilen dim : Nat) (zufall : Nat → Nat → Nat) (m : Speicher) (i j : Nat)
    (hi1 : 1 ≤ i) (hi2 : i ≤ zeilen) (hj1 : 1 ≤ j) (hj2 : j ≤ dim) :
    lies dim (saat zeilen dim zufall m) i j = ((zufall i j % 2 : Nat) : Int) := by
  unfold lies saat
  exact doppel_innen zeilen dim (fun i j => ((zufall i j % 2 : Nat) : Int)) m i j
    hi1 hi2 hj1 hj2

/-- The seeding loops leave the border of the grid alone. -/
theorem saat_aussen (zeilen dim : Nat) (zufall : Nat → Nat → Nat) (m : Speicher) (i j : Nat)
    (hj : j ≤ dim + 1) (h : i = 0 ∨ zeilen < i ∨ j = 0 ∨ j = dim + 1) :
    lies dim (saat zeilen dim zufall m) i j = lies dim m i j := by
  unfold lies saat
  apply doppel_sonst
  intro i2 j2 h1 h2 h3 h4 hc
  have := adr_inj dim i j i2 j2 hj (by omega) hc
  omega

/-! ## Block transfers, cell by cell -/

/-- Storing `n` rows read from row `z0` of `src` at row `z` of `m`. -/
theorem block_lies (dim : Nat) (m src : Speicher) (z n z0 i j : Nat) (hj : j ≤ dim + 1) :
    lies dim (block_schreiben m ((dim + 2) * z) (n * (dim + 2)) (block_lesen dim src z0)) i j =
      if z ≤ i ∧ i < z + n then lies dim src (z0 + (i - z)) j else lies dim m i j := by
  unfold lies block_schreiben block_lesen
  have e : (dim + 2) * z + n * (dim + 2) = (dim + 2) * (z + n) := by ring
  have c1 := adr_ge_iff dim i j z hj
  have c2 := adr_lt_iff dim i j (z + n) hj
  by_cases hc : z ≤ i ∧ i < z + n
  · have hc2 : (dim + 2) * z ≤ adr dim i j ∧ adr dim i j < (dim + 2) * z + n * (dim + 2) := by
      rw [e]; exact ⟨c1.mpr hc.1, c2.mpr hc.2⟩
    rw [if_pos hc, if_pos hc2]
    obtain ⟨d, rfl⟩ : ∃ d, i = z + d := ⟨i - z, by omega⟩
    congr 1
    unfold adr
    have : z + d - z = d := by omega
    rw [this, Nat.mul_add, Nat.mul_add]
    omega
  · have hc2 : ¬ ((dim + 2) * z ≤ adr dim i j ∧ adr dim i j < (dim + 2) * z + n * (dim + 2)) := by
      rw [e]
      intro h
      exact hc ⟨c1.mp h.1, c2.mp h.2⟩
    rw [if_neg hc, if_neg hc2]

/-- Storing one row read from row `z0` of `src` at row `z` of `m`. -/
theorem zeile_lies (dim : Nat) (m src : Speicher) (z z0 i j : Nat) (hj : j ≤ dim + 1) :
    lies dim (block_schreiben m ((dim + 2) * z) (dim + 2) (block_lesen dim src z0)) i j =
      if i = z then lies dim src z0 j else lies dim m i j := by
  have h := block_lies dim m src z 1 z0 i j hj
  rw [Nat.one_mul] at h
  rw [h]
  by_cases hc : i = z
  · subst hc
    simp
  · rw [if_neg hc, if_neg (by omega)]

/-! ## The halo exchange, cell by cell -/

theorem nachbar_eq (P r : Nat) (hP : 2 ≤ P) (hr : r < P) :
    nachbar_bestimmen P r =
      { sende_oben := if r = 0 then none else some (r - 1)
        sende_unten := if r + 1 < P then some (r + 1) else none
        hole_oben := if r = 0 then none else some (r - 1)
        hole_unten := if r + 1 < P then some (r + 1) else none } := by
  unfold nachbar_bestimmen ROOT
  by_cases h0 : r = 0
  · subst h0
    have h1 : 0 + 1 < P := by omega
    simp only [if_pos h1, if_true]
  · simp only [if_neg h0]
    by_cases h1 : r = P - 1
    · have h2 : ¬ (r + 1 < P) := by omega
      have h3 : P - 2 = r - 1 := by omega
      simp only [if_pos h1, if_neg h2, h3]
    · have h2 : r + 1 < P := by omega
      simp only [if_neg h1, if_pos h2]

theorem gesendete_zeile_unten (dim P r : Nat) (hP : 2 ≤ P) (hr : r + 1 < P) :
    gesendete_zeile dim P r (r + 1) = some (my_size dim P r) := by
  unfold gesendete_zeile
  rw [nachbar_eq P r hP (by omega)]
  simp only
  have h1 : ¬ ((if r = 0 then none else some (r - 1)) = some (r + 1)) := by
    split_ifs
    · simp
    · simp only [Option.some.injEq]; omega
  rw [if_neg h1, if_pos hr, if_pos rfl]

theorem gesendete_zeile_oben (dim P r : Nat) (hP : 2 ≤ P) (hr : r + 1 < P) :
    gesendete_zeile dim P (r + 1) r = some 1 := by
  unfold gesendete_zeile
  rw [nachbar_eq P (r + 1) hP hr]
  simp

/-- The current grid of rank `r` after the exchange, for at least two ranks. -/
theorem austausch_rang_eq (dim P : Nat) (welt : Nat → Proc) (r : Nat) (hP : 2 ≤ P)
    (hr : r < P) :
    austausch_rang dim P welt r = some
      (if r + 1 < P then
        block_schreiben
          (if r = 0 then (welt r).my_spielfeld
            else block_schreiben (welt r).my_spielfeld ((dim + 2) * 0) (dim + 2)
              (block_lesen dim (welt (r - 1)).my_spielfeld (my_size dim P (r - 1))))
          ((dim + 2) * (my_size dim P r + 1)) (dim + 2)
          (block_lesen dim (welt (r + 1)).my_spielfeld 1)
      else
        (if r = 0 then (welt r).my_spielfeld
          else block_schreiben (welt r).my_spielfeld ((dim + 2) * 0) (dim + 2)
            (block_lesen dim (welt (r - 1)).my_spielfeld (my_size dim P (r - 1))))) := by
  unfold austausch_rang
  rw [nachbar_eq P r hP hr]
  simp only
  have ok : (rang_ok P (if r = 0 then none else some (r - 1)) = true
      ∧ rang_ok P (if r + 1 < P then some (r + 1) else none) = true) := by
    constructor
    · split_ifs
      · rfl
      · simp [rang_ok]; omega
    · split_ifs with h
      · simp [rang_ok, h]
      · rfl
  rw [if_pos ok]
  by_cases h0 : r = 0
  · subst h0
    rw [if_pos rfl, if_pos (by omega), if_pos rfl, if_pos (by omega)]
    simp only [empfange, Option.bind]
    rw [if_pos (by omega)]
    have := gesendete_zeile_oben dim P 0 hP (by omega)
    simp only [Nat.zero_add] at this
    rw [this]
  · rw [if_neg h0, if_neg h0]
    have hup : empfange dim P welt r (some (r - 1)) 0 (welt r).my_spielfeld
        = some (block_schreiben (welt r).my_spielfeld ((dim + 2) * 0) (dim + 2)
            (block_lesen dim (welt (r - 1)).my_spielfeld (my_size dim P (r - 1)))) := by
      simp only [empfange]
      rw [if_pos (by omega)]
      have := gesendete_zeile_unten dim P (r - 1) hP (by omega)
      have e : r - 1 + 1 = r := by omega
      rw [e] at this
      rw [this]
    rw [hup]
    simp only [Option.bind]
    by_cases h1 : r + 1 < P
    · rw [if_pos h1, if_pos h1]
      simp only [empfange]
      rw [if_pos h1, gesendete_zeile_oben dim P r hP h1]
    · rw [if_neg h1, if_neg h1]
      simp only [empfange]

/-- The halo exchange with at least two ranks succeeds; a cell of the current
grid of rank `r` then holds the neighbour's boundary row in a ghost row that has
a neighbour, and its old value everywhere else. -/
theorem austausch_spec (dim P : Nat) (welt : Nat → Proc) (hP : 2 ≤ P) :
    ∃ w, austausch dim P welt = some w ∧
      ∀ r, r < P → (w r).my_zwischen = (welt r).my_zwischen ∧
        ∀ i j, j ≤ dim + 1 →
          lies dim (w r).my_spielfeld i j =
            if i = my_size dim P r + 1 ∧ r + 1 < P then
              lies dim (welt (r + 1)).my_spielfeld 1 j
            else if i = 0 ∧ r ≠ 0 then
              lies dim (welt (r - 1)).my_spielfeld (my_size dim P (r - 1)) j
            else lies dim (welt r).my_spielfeld i j := by
  have hall : (List.range P).all (fun r => (austausch_rang dim P welt r).isSome) = true := by
    rw [List.all_eq_true]
    intro r hr
    rw [List.mem_range] at hr
    rw [austausch_rang_eq dim P welt r hP hr]
    rfl
  refine ⟨_, by unfold austausch; rw [if_pos hall], ?_⟩
  intro r hr
  simp only [if_pos hr]
  rw [austausch_rang_eq dim P welt r hP hr]
  refine ⟨rfl, ?_⟩
  intro i j hj
  have tail : lies dim (if r = 0 then (welt r).my_spielfeld
        else block_schreiben (welt r).my_spielfeld ((dim + 2) * 0) (dim + 2)
          (block_lesen dim (welt (r - 1)).my_spielfeld (my_size dim P (r - 1)))) i j =
      if i = 0 ∧ r ≠ 0 then lies dim (welt (r - 1)).my_spielfeld (my_size dim P (r - 1)) j
      else lies dim (welt r).my_spielfeld i j := by
    by_cases h0 : r = 0
    · have hn0 : ¬ (i = 0 ∧ r ≠ 0) := fun h => h.2 h0
      rw [if_pos h0, if_neg hn0]
    · rw [if_neg h0, zeile_lies dim _ _ _ _ _ _ hj]
      by_cases hz : i = 0
      · rw [if_pos hz, if_pos ⟨hz, h0⟩]
      · have hn : ¬ (i = 0 ∧ r ≠ 0) := fun h => hz h.1
        rw [if_neg hz, if_neg hn]
  by_cases h1 : r + 1 < P
  · rw [if_pos h1, zeile_lies dim _ _ _ _ _ _ hj]
    by_cases hi : i = my_size dim P r + 1
    · rw [if_pos hi, if_pos ⟨hi, h1⟩]
    · have hn : ¬ (i = my_size dim P r + 1 ∧ r + 1 < P) := fun h => hi h.1
      rw [if_neg hi, if_neg hn]
      exact tail
  · have hn : ¬ (i = my_size dim P r + 1 ∧ r + 1 < P) := fun h => h1 h.2
    rw [if_neg h1, if_neg hn]
    exact tail

/-! ## Bands and the assembly at the coordinator -/

/-- A row below the start of band `n` lies in the band of a rank below `n`. -/
theorem band_finden (D P g : Nat) :
    ∀ n, g < my_offset D P n →
      ∃ r, r < n ∧ my_offset D P r ≤ g ∧ g < my_offset D P r + my_size D P r := by
  intro n
  induction n with
  | zero =>
    intro h
    rw [my_offset_eq] at h
    simp at h
  | succ n ih =>
    intro h
    by_cases hg : g < my_offset D P n
    · obtain ⟨r, hr, h1, h2⟩ := ih hg
      exact ⟨r, by omega, h1, h2⟩
    · rw [my_offset_succ] at h
      exact ⟨n, by omega, by omega, h⟩

/-- A row lies in the band of one rank only. -/
theorem band_eindeutig (D P r s g : Nat)
    (h1 : my_offset D P r ≤ g) (h2 : g < my_offset D P r + my_size D P r)
    (h3 : my_offset D P s ≤ g) (h4 : g < my_offset D P s + my_size D P s) : r = s := by
  by_contra hne
  rcases Nat.lt_or_gt_of_ne hne with h | h
  · have := my_offset_mono D P (r + 1) s (by omega)
    rw [my_offset_succ] at this
    omega
  · have := my_offset_mono D P (s + 1) r (by omega)
    rw [my_offset_succ] at this
    omega

theorem my_offset_lt (D P r : Nat) (hP : 1 ≤ P) (hPD : P ≤ D) (hr : r < P) :
    my_offset D P r < D := by
  have h1 := my_offset_mono D P (r + 1) P (by omega)
  rw [my_offset_succ, my_offset_nprocs D P hP] at h1
  have := my_size_pos D P r hP hPD
  omega

theorem my_offset_add_le (D P r : Nat) (hP : 1 ≤ P) (hr : r < P) :
    my_offset D P r + my_size D P r ≤ D := by
  have h1 := my_offset_mono D P (r + 1) P (by omega)
  rw [my_offset_succ, my_offset_nprocs D P hP] at h1
  exact h1

/-- With no more ranks than rows the assembly succeeds. -/
theorem sammeln_some (D P : Nat) (welt : Nat → Proc) (voll : Speicher)
    (hP : 1 ≤ P) (hPD : P ≤ D) : ∃ v, sammeln D P welt voll = some v := by
  unfold sammeln
  have hc : ((List.range' 1 (P - 1)).all (fun i => decide (my_offset D P i < D)) = true
      ∧ 0 < D) := by
    constructor
    · rw [List.all_eq_true]
      intro i hi
      rw [List.mem_range'_1] at hi
      exact decide_eq_true (my_offset_lt D P i hP hPD (by omega))
    · omega
  rw [if_pos hc]
  exact ⟨_, rfl⟩

/-- Row `g` of the assembled grid, when `g` lies in the band of rank `r`, is the
owned row `1 + (g - my_offset r)` of rank `r`. -/
theorem sammeln_lies (D P : Nat) (welt : Nat → Proc) (voll v : Speicher)
    (h : sammeln D P welt voll = some v) (r g j : Nat) (hr : r < P)
    (h1 : my_offset D P r ≤ g) (h2 : g < my_offset D P r + my_size D P r)
    (hj : j ≤ D + 1) :
    lies D v g j = lies D (welt r).my_spielfeld (1 + (g - my_offset D P r)) j := by
  unfold sammeln at h
  split_ifs at h with hc
  simp only [Option.some.injEq] at h
  subst h
  unfold my_elements ROOT
  rw [block_lies D _ _ 0 _ 1 g j hj]
  by_cases h0 : r = 0
  · subst h0
    have e : my_offset D P 0 = 0 := by rw [my_offset_eq]; simp
    rw [e] at h1 h2
    rw [if_pos ⟨h1, h2⟩, e]
  · have e0 : my_offset D P 0 = 0 := by rw [my_offset_eq]; simp
    have e1 := my_offset_succ D P 0
    have e2 := my_offset_mono D P (0 + 1) r (by omega)
    rw [if_neg (by omega)]
    have body : ∀ (i : Nat) (acc : Speicher),
        block_schreiben acc ((D + 2) * my_offset D P i) (my_size D P i * (D + 2))
            (block_lesen D (welt i).my_spielfeld 1) (adr D g j) =
          if my_offset D P i ≤ g ∧ g < my_offset D P i + my_size D P i then
            lies D (welt i).my_spielfeld (1 + (g - my_offset D P i)) j
          else acc (adr D g j) := by
      intro i acc
      exact block_lies D acc _ (my_offset D P i) _ 1 g j hj
    unfold lies
    apply schleife_set 1 (P - 1) _ voll _ _ r (by omega) (by omega)
    · intro acc
      rw [body, if_pos ⟨h1, h2⟩]
      rfl
    · intro i _ _
      by_cases hi : i = r
      · right; intro acc
        rw [hi, body, if_pos ⟨h1, h2⟩]
        rfl
      · left; intro acc
        rw [body, if_neg]
        intro hb
        exact hi (band_eindeutig D P i r g hb.1 hb.2 h1 h2)

/-! ## Sentinel cells stay dead -/

theorem rand_tot_rand_nullen (zeilen dim : Nat) (m : Speicher) :
    rand_tot zeilen dim (rand_nullen zeilen dim m) := by
  refine ⟨?_, ?_, ?_⟩
  · intro i hi
    exact ⟨rand_nullen_rand zeilen dim m i 0 hi (by omega) (by omega),
      rand_nullen_rand zeilen dim m i (dim + 1) hi (by omega) (by omega)⟩
  · intro j hj
    exact rand_nullen_rand zeilen dim m 0 j (by omega) hj (by omega)
  · intro j hj
    exact rand_nullen_rand zeilen dim m (zeilen + 1) j (by omega) hj (by omega)

theorem rand_tot_saat (zeilen dim : Nat) (zufall : Nat → Nat → Nat) (m : Speicher)
    (h : rand_tot zeilen dim m) : rand_tot zeilen dim (saat zeilen dim zufall m) := by
  obtain ⟨h1, h2, h3⟩ := h
  refine ⟨?_, ?_, ?_⟩
  · intro i hi
    rw [saat_aussen zeilen dim zufall m i 0 (by omega) (by omega),
      saat_aussen zeilen dim zufall m i (dim + 1) (by omega) (by omega)]
    exact h1 i hi
  · intro j hj
    rw [saat_aussen zeilen dim zufall m 0 j hj (by omega)]
    exact h2 j hj
  · intro j hj
    rw [saat_aussen zeilen dim zufall m (zeilen + 1) j hj (by omega)]
    exact h3 j hj

theorem spalten_tot_update (zeilen dim : Nat) (sp zw : Speicher)
    (h : spalten_tot zeilen dim zw) : spalten_tot zeilen dim (update zeilen dim sp zw) := by
  intro i hi
  rw [update_aussen zeilen dim sp zw i 0 (by omega) (by omega),
    update_aussen zeilen dim sp zw i (dim + 1) (by omega) (by omega)]
  exact h i hi

theorem zeile_tot_update (zeilen dim : Nat) (sp zw : Speicher) (i : Nat)
    (hi : i = 0 ∨ zeilen < i) (h : zeile_tot dim zw i) :
    zeile_tot dim (update zeilen dim sp zw) i := by
  intro j hj
  rw [update_aussen zeilen dim sp zw i j hj (by omega)]
  exact h j hj

theorem rand_tot_update (zeilen dim : Nat) (sp zw : Speicher) (h : rand_tot zeilen dim zw) :
    rand_tot zeilen dim (update zeilen dim sp zw) :=
  ⟨spalten_tot_update zeilen dim sp zw h.1,
    zeile_tot_update zeilen dim sp zw 0 (by omega) h.2.1,
    zeile_tot_update zeilen dim sp zw (zeilen + 1) (by omega) h.2.2⟩

/-- The border of both grids of `GOL_seriell` is dead after every generation. -/
theorem seriell_rand (D : Nat) (roh_sp roh_zw : Speicher) (zufall : Nat → Nat → Nat) :
    ∀ k, rand_tot D D (GOL_seriell D k roh_sp roh_zw zufall).voll_spielfeld ∧
      rand_tot D D (GOL_seriell D k roh_sp roh_zw zufall).voll_zwischen := by
  intro k
  unfold GOL_seriell
  induction k with
  | zero =>
    exact ⟨rand_tot_saat D D zufall _ (rand_tot_rand_nullen D D roh_sp),
      rand_tot_rand_nullen D D roh_zw⟩
  | succ k ih =>
    exact ⟨rand_tot_update D D _ _ ih.2, ih.1⟩

theorem welt_rand_init (D P : Nat) (roh : Nat → Proc) (roh_voll : Speicher)
    (zufall : Nat → Nat → Nat → Nat) :
    welt_rand_tot D P (GOL_parallel_init D P roh roh_voll zufall).welt := by
  intro r _
  have a := rand_tot_saat (my_size D P r) D (zufall r) _
    (rand_tot_rand_nullen (my_size D P r) D (roh r).my_spielfeld)
  have b := rand_tot_rand_nullen (my_size D P r) D (roh r).my_zwischen
  exact ⟨a.1, b.1, fun _ => ⟨a.2.1, b.2.1⟩, fun _ => ⟨a.2.2, b.2.2⟩⟩

theorem welt_rand_austausch (D P : Nat) (welt w : Nat → Proc) (hP : 2 ≤ P)
    (h : welt_rand_tot D P welt) (hw : austausch D P welt = some w) :
    welt_rand_tot D P w := by
  obtain ⟨w2, hw2, spec⟩ := austausch_spec D P welt hP
  rw [hw] at hw2
  simp only [Option.some.injEq] at hw2
  subst hw2
  intro r hr
  obtain ⟨hzw, hsp⟩ := spec r hr
  obtain ⟨h1, h2, h3, h4⟩ := h r hr
  have col : ∀ i, i ≤ my_size D P r + 1 → ∀ j, (j = 0 ∨ j = D + 1) →
      lies D (w r).my_spielfeld i j = 0 := by
    intro i hi j hj
    rw [hsp i j (by omega)]
    split_ifs with c1 c2
    · have := (h (r + 1) c1.2).1 1 (by omega)
      rcases hj with hj | hj <;> rw [hj]
      · exact this.1
      · exact this.2
    · have := (h (r - 1) (by omega)).1 (my_size D P (r - 1)) (by omega)
      rcases hj with hj | hj <;> rw [hj]
      · exact this.1
      · exact this.2
    · rcases hj with hj | hj <;> rw [hj]
      · exact (h1 i hi).1
      · exact (h1 i hi).2
  refine ⟨fun i hi => ⟨col i hi 0 (Or.inl rfl), col i hi (D + 1) (Or.inr rfl)⟩, ?_, ?_, ?_⟩
  · rw [hzw]; exact h2
  · intro h0
    rw [hzw]
    refine ⟨?_, (h3 h0).2⟩
    intro j hj
    rw [hsp 0 j hj, if_neg (by omega), if_neg (by omega)]
    exact (h3 h0).1 j hj
  · intro hl
    rw [hzw]
    refine ⟨?_, (h4 hl).2⟩
    intro j hj
    rw [hsp _ j hj, if_neg (by omega), if_neg (by omega)]
    exact (h4 hl).1 j hj

theorem welt_rand_rechnen (D P : Nat) (w : Nat → Proc) (h : welt_rand_tot D P w) :
    welt_rand_tot D P (rechnen D P w) := by
  intro r hr
  obtain ⟨h1, h2, h3, h4⟩ := h r hr
  simp only [rechnen, if_pos hr, GOL_parallel_update]
  exact ⟨spalten_tot_update _ _ _ _ h2, h1,
    fun h0 => ⟨zeile_tot_update _ _ _ _ 0 (by omega) (h3 h0).2, (h3 h0).1⟩,
    fun hl => ⟨zeile_tot_update _ _ _ _ _ (by omega) (h4 hl).2, (h4 hl).1⟩⟩

/-- A generation that completes is an exchange, the local updates and an assembly. -/
theorem runde_zerlegen (D P : Nat) (s t : Zustand) (h : GOL_parallel_runde D P s = some t) :
    ∃ w, austausch D P s.welt = some w ∧ t.welt = rechnen D P w ∧
      sammeln D P (rechnen D P w) s.voll = some t.voll := by
  unfold GOL_parallel_runde at h
  cases ha : austausch D P s.welt with
  | none => rw [ha] at h; simp at h
  | some w =>
    rw [ha] at h
    simp only at h
    cases hs : sammeln D P (rechnen D P w) s.voll with
    | none => rw [hs] at h; simp at h
    | some v =>
      rw [hs] at h
      simp only [Option.some.injEq] at h
      subst h
      exact ⟨w, rfl, rfl, hs⟩

/-- With at least two ranks and no more ranks than rows a generation completes. -/
theorem runde_some (D P : Nat) (s : Zustand) (hP : 2 ≤ P) (hPD : P ≤ D) :
    ∃ t, GOL_parallel_runde D P s = some t := by
  obtain ⟨w, hw, _⟩ := austausch_spec D P s.welt hP
  obtain ⟨v, hv⟩ := sammeln_some D P (rechnen D P w) s.voll (by omega) hPD
  unfold GOL_parallel_runde
  rw [hw]
  simp only
  rw [hv]
  exact ⟨_, rfl⟩

theorem lauf_succ (D P k : Nat) (s u : Zustand)
    (h : GOL_parallel_lauf D P (k + 1) s = some u) :
    ∃ t, GOL_parallel_lauf D P k s = some t ∧ GOL_parallel_runde D P t = some u := by
  simp only [GOL_parallel_lauf] at h
  cases ht : GOL_parallel_lauf D P k s with
  | none => rw [ht] at h; simp at h
  | some t =>
    rw [ht] at h
    exact ⟨t, rfl, h⟩

/-- The sentinel cells of every process are dead after every generation. -/
theorem parallel_rand (D P : Nat) (roh : Nat → Proc) (roh_voll : Speicher)
    (zufall : Nat → Nat → Nat → Nat) (hP : 2 ≤ P) :
    ∀ k s, GOL_parallel D P k roh roh_voll zufall = some s → welt_rand_tot D P s.welt := by
  intro k
  unfold GOL_parallel
  induction k with
  | zero =>
    intro s hs
    simp only [GOL_parallel_lauf, Option.some.injEq] at hs
    subst hs
    exact welt_rand_init D P roh roh_voll zufall
  | succ k ih =>
    intro u hu
    obtain ⟨t, ht, htu⟩ := lauf_succ D P k _ u hu
    obtain ⟨w, hw, hwelt, _⟩ := runde_zerlegen D P t u htu
    rw [hwelt]
    exact welt_rand_rechnen D P w (welt_rand_austausch D P t.welt w hP (ih t ht) hw)

/-! ## The distributed run computes the rows of the serial run -/

/-- The rule reads the nine cells around `(i, j)` only. -/
theorem regel_verschoben (dim : Nat) (sp sp2 : Speicher) (o i j : Nat) (hi : 1 ≤ i)
    (h : ∀ a b, i - 1 ≤ a → a ≤ i + 1 → b ≤ j + 1 →
      lies dim sp a b = lies dim sp2 (o + a) b) :
    regel dim sp i j = regel dim sp2 (o + i) j := by
  have e1 : o + i - 1 = o + (i - 1) := by omega
  have n : nachbarn dim sp i j = nachbarn dim sp2 (o + i) j := by
    unfold nachbarn
    rw [e1, Nat.add_assoc o i 1,
      h (i - 1) (j - 1) (by omega) (by omega) (by omega),
      h (i - 1) j (by omega) (by omega) (by omega),
      h (i - 1) (j + 1) (by omega) (by omega) (by omega),
      h i (j - 1) (by omega) (by omega) (by omega),
      h i (j + 1) (by omega) (by omega) (by omega),
      h (i + 1) (j - 1) (by omega) (by omega) (by omega),
      h (i + 1) j (by omega) (by omega) (by omega),
      h (i + 1) (j + 1) (by omega) (by omega) (by omega)]
  unfold regel
  rw [n, h i j (by omega) (by omega) (by omega)]

/-- After the exchange every row of a process, ghost rows included, is the row
of the serial grid at the offset of the rank. -/
theorem halo_gleich (D P : Nat) (welt w : Nat → Proc) (sp : Speicher)
    (hP : 2 ≤ P) (hPD : P ≤ D) (hW : welt_rand_tot D P welt) (hS : rand_tot D D sp)
    (hR : baender_gleich D P welt sp) (hw : austausch D P welt = some w) :
    ∀ r, r < P → ∀ a, a ≤ my_size D P r + 1 → ∀ b, b ≤ D + 1 →
      lies D (w r).my_spielfeld a b = lies D sp (my_offset D P r + a) b := by
  obtain ⟨w2, hw2, spec⟩ := austausch_spec D P welt hP
  rw [hw] at hw2
  simp only [Option.some.injEq] at hw2
  subst hw2
  intro r hr a ha b hb
  rw [(spec r hr).2 a b hb]
  split_ifs with c1 c2
  · have e3 : my_offset D P (r + 1) + 1 = my_offset D P r + a := by
      rw [my_offset_succ, c1.1]
      omega
    rw [hR (r + 1) c1.2 1 (by omega) (my_size_pos D P _ (by omega) hPD) b hb, e3]
  · have e : r - 1 + 1 = r := by omega
    have s := my_offset_succ D P (r - 1)
    rw [e] at s
    have e3 : my_offset D P (r - 1) + my_size D P (r - 1) = my_offset D P r + a := by
      rw [c2.1]
      omega
    rw [hR (r - 1) (by omega) _ (my_size_pos D P _ (by omega) hPD) (by omega) b hb, e3]
  · by_cases h0 : a = 0
    · have hr0 : r = 0 := by
        by_contra hc
        exact c2 ⟨h0, hc⟩
      subst h0
      subst hr0
      have e : my_offset D P 0 = 0 := by rw [my_offset_eq]; simp
      rw [e, ((hW 0 hr).2.2.1 rfl).1 b hb, hS.2.1 b hb]
    · by_cases hl : a = my_size D P r + 1
      · have hrl : r + 1 = P := by
          by_contra hc
          exact c1 ⟨hl, by omega⟩
        have e : my_offset D P (r + 1) = D := by
          rw [hrl]
          exact my_offset_nprocs D P (by omega)
        rw [my_offset_succ] at e
        rw [hl, ((hW r hr).2.2.2 hrl).1 b hb]
        have e2 : my_offset D P r + (my_size D P r + 1) = D + 1 := by omega
        rw [e2, hS.2.2 b hb]
      · exact hR r hr a (by omega) (by omega) b hb

/-- One generation keeps the bands equal to the rows of the serial grid. -/
theorem baender_schritt (D P : Nat) (welt w : Nat → Proc) (sp zw : Speicher)
    (hP : 2 ≤ P) (hPD : P ≤ D) (hW : welt_rand_tot D P welt)
    (hS1 : rand_tot D D sp) (hS2 : rand_tot D D zw)
    (hR : baender_gleich D P welt sp) (hw : austausch D P welt = some w) :
    baender_gleich D P (rechnen D P w) (GOL_seriell_update D sp zw) := by
  have halo := halo_gleich D P welt w sp hP hPD hW hS1 hR hw
  have hW2 := welt_rand_austausch D P welt w hP hW hw
  intro r hr i hi1 hi2 j hj
  have hle := my_offset_add_le D P r (by omega) hr
  simp only [rechnen, if_pos hr, GOL_parallel_update, GOL_seriell_update]
  by_cases hin : 1 ≤ j ∧ j ≤ D
  · rw [update_innen _ _ _ _ _ _ hi1 hi2 hin.1 hin.2,
      update_innen _ _ _ _ _ _ (by omega) (by omega) hin.1 hin.2]
    apply regel_verschoben D _ _ _ i j hi1
    intro a b h1 h2 h3
    exact halo r hr a (by omega) b (by omega)
  · have hj2 : j = 0 ∨ j = D + 1 := by omega
    rw [update_aussen _ _ _ _ _ _ hj (by omega), update_aussen _ _ _ _ _ _ hj (by omega)]
    have c1 := (hW2 r hr).2.1 i (by omega)
    have c2 := hS2.1 (my_offset D P r + i) (by omega)
    rcases hj2 with h | h <;> rw [h]
    · rw [c1.1, c2.1]
    · rw [c1.2, c2.2]

/-- The seeded bands are the rows of the seeded serial grid. -/
theorem baender_init (D P : Nat) (roh : Nat → Proc) (roh_voll roh_sp roh_zw : Speicher)
    (zufall : Nat → Nat → Nat) (hP : 1 ≤ P) :
    baender_gleich D P
      (GOL_parallel_init D P roh roh_voll (fun r i j => zufall (my_offset D P r + i) j)).welt
      (GOL_seriell_init D roh_sp roh_zw zufall).voll_spielfeld := by
  intro r hr i hi1 hi2 j hj
  have hle := my_offset_add_le D P r hP hr
  simp only [GOL_parallel_init, GOL_seriell_init]
  by_cases hin : 1 ≤ j ∧ j ≤ D
  · rw [saat_innen _ _ _ _ _ _ hi1 hi2 hin.1 hin.2,
      saat_innen _ _ _ _ _ _ (by omega) (by omega) hin.1 hin.2]
  · have hj2 : j = 0 ∨ j = D + 1 := by omega
    rw [saat_aussen _ _ _ _ _ _ hj (by omega), saat_aussen _ _ _ _ _ _ hj (by omega),
      rand_nullen_rand _ _ _ _ _ (by omega) hj (by omega),
      rand_nullen_rand _ _ _ _ _ (by omega) hj (by omega)]

/-- With `2 ≤ P ≤ D` the distributed run completes every generation; the owned
rows of its processes are the rows of the serial grid of the same generation,
and so are the rows of the assembled grid once a generation has run. -/
theorem parallel_gleich_seriell (D P : Nat) (roh : Nat → Proc)
    (roh_voll roh_sp roh_zw : Speicher) (zufall : Nat → Nat → Nat)
    (hP : 2 ≤ P) (hPD : P ≤ D) :
    ∀ k, ∃ s,
      GOL_parallel D P k roh roh_voll (fun r i j => zufall (my_offset D P r + i) j) = some s ∧
      baender_gleich D P s.welt (GOL_seriell D k roh_sp roh_zw zufall).voll_spielfeld ∧
      (1 ≤ k → ∀ g, 1 ≤ g → g ≤ D → ∀ j, j ≤ D + 1 →
        lies D s.voll (g - 1) j =
          lies D (GOL_seriell D k roh_sp roh_zw zufall).voll_spielfeld g j) := by
  intro k
  induction k with
  | zero =>
    refine ⟨_, rfl, baender_init D P roh roh_voll roh_sp roh_zw zufall (by omega), ?_⟩
    intro h
    omega
  | succ k ih =>
    obtain ⟨t, ht, hR, _⟩ := ih
    obtain ⟨u, hu⟩ := runde_some D P t hP hPD
    obtain ⟨w, hw, hwelt, hvoll⟩ := runde_zerlegen D P t u hu
    have hW := parallel_rand D P roh roh_voll _ hP k t ht
    have hS := seriell_rand D roh_sp roh_zw zufall k
    have hR2 : baender_gleich D P u.welt
        (GOL_seriell D (k + 1) roh_sp roh_zw zufall).voll_spielfeld := by
      rw [hwelt]
      exact baender_schritt D P t.welt w _ _ hP hPD hW hS.1 hS.2 hR hw
    refine ⟨u, ?_, hR2, ?_⟩
    · unfold GOL_parallel at ht ⊢
      simp only [GOL_parallel_lauf, ht, Option.bind]
      exact hu
    · intro _ g hg1 hg2 j hj
      have hlt : g - 1 < my_offset D P P := by
        rw [my_offset_nprocs D P (by omega)]
        omega
      obtain ⟨r, hr, h1, h2⟩ := band_finden D P (g - 1) P hlt
      rw [← hwelt] at hvoll
      rw [sammeln_lies D P u.welt t.voll u.voll hvoll r (g - 1) j hr h1 h2 hj,
        hR2 r hr _ (by omega) (by omega) j hj]
      congr 1
      omega

/-! ## Claims on the rule and on the partition -/

/-- C1 (Life rule).  Let the cells of the current buffer around `(i, j)` (in
particular: all cells of the grid) be `0` or `1`.  After the update loops of
`GOL_seriell` and of `GOL_parallel`, the interior cell `(i, j)` of the next buffer
holds `1` exactly when the sum of its eight neighbours in the current buffer is
`3`, or is `2` with the cell itself alive, and holds `0` otherwise, whatever the
next buffer held before. -/
theorem C1_life_rule (dim nprocs my_rank : Nat) (sp zw : Speicher) (i j : Nat)
    (hi1 : 1 ≤ i) (hj1 : 1 ≤ j) (hj2 : j ≤ dim)
    (hbin : ∀ a b, a ≤ i + 1 → b ≤ j + 1 → lies dim sp a b = 0 ∨ lies dim sp a b = 1) :
    (i ≤ dim →
      lies dim (GOL_seriell_update dim sp zw) i j =
        if nachbarn dim sp i j = 3 ∨ (nachbarn dim sp i j = 2 ∧ lies dim sp i j = 1)
        then 1 else 0) ∧
    (i ≤ my_size dim nprocs my_rank →
      lies dim (GOL_parallel_update dim nprocs my_rank sp zw) i j =
        if nachbarn dim sp i j = 3 ∨ (nachbarn dim sp i j = 2 ∧ lies dim sp i j = 1)
        then 1 else 0) := by
  have key : regel dim sp i j =
      if nachbarn dim sp i j = 3 ∨ (nachbarn dim sp i j = 2 ∧ lies dim sp i j = 1)
      then 1 else 0 := by
    unfold regel
    rcases hbin i j (by omega) (by omega) with h | h <;> rw [h] <;> split_ifs <;> omega
  constructor
  · intro hi2
    unfold GOL_seriell_update
    rw [update_innen _ _ _ _ _ _ hi1 hi2 hj1 hj2, key]
  · intro hi2
    unfold GOL_parallel_update
    rw [update_innen _ _ _ _ _ _ hi1 hi2 hj1 hj2, key]

/-- Witness for C1: a `1 x 1` grid with a dead cell and no live neighbour. -/
theorem C1_life_rule_witness :
    (1 ≤ 1 → lies 1 (GOL_seriell_update 1 (fun _ => 0) (fun _ => 5)) 1 1 =
        if nachbarn 1 (fun _ => 0) 1 1 = 3
          ∨ (nachbarn 1 (fun _ => 0) 1 1 = 2 ∧ lies 1 (fun _ => 0) 1 1 = 1)
        then 1 else 0) ∧
    (1 ≤ my_size 1 1 0 → lies 1 (GOL_parallel_update 1 1 0 (fun _ => 0) (fun _ => 5)) 1 1 =
        if nachbarn 1 (fun _ => 0) 1 1 = 3
          ∨ (nachbarn 1 (fun _ => 0) 1 1 = 2 ∧ lies 1 (fun _ => 0) 1 1 = 1)
        then 1 else 0) :=
  C1_life_rule 1 1 0 (fun _ => 0) (fun _ => 5) 1 1 (by decide) (by decide) (by decide)
    (fun _ _ _ _ => Or.inl rfl)

/-- C3 (band sizes sum to the dimension).  For every `D` and `P ≥ 1` the values
`my_size` of the ranks `0..P-1` add up to `D`. -/
theorem C3_sizes_sum (D P : Nat) (hP : 1 ≤ P) :
    ∑ r in Finset.range P, my_size D P r = D := by
  rw [summe_my_size]
  have h1 : D % P < P := Nat.mod_lt _ (by omega)
  rw [Nat.min_eq_right (by omega)]
  exact Nat.div_add_mod D P

/-- Witness for C3: seven rows on three ranks. -/
theorem C3_sizes_sum_witness : ∑ r in Finset.range 3, my_size 7 3 r = 7 :=
  C3_sizes_sum 7 3 (by decide)

/-- C4 (offsets tile the grid).  For every `D`, `P ≥ 1` and every rank `r`, the
value `my_offset` is `r * (D / P) + min r (D mod P)`, it is the sum of the band
sizes of the ranks below `r`, the offset of rank `0` is `0`, the next offset is
this offset plus this band, the last band ends at row `D`, and the band of a lower
rank ends before the band of a higher rank starts. -/
theorem C4_offsets_tile (D P r : Nat) (hP : 1 ≤ P) :
    my_offset D P r = r * (D / P) + min r (D % P) ∧
    my_offset D P r = ∑ i in Finset.range r, my_size D P i ∧
    my_offset D P 0 = 0 ∧
    my_offset D P (r + 1) = my_offset D P r + my_size D P r ∧
    my_offset D P (P - 1) + my_size D P (P - 1) = D ∧
    (∀ s, s < r → my_offset D P s + my_size D P s ≤ my_offset D P r) := by
  refine ⟨my_offset_eq D P r, ?_, ?_, my_offset_succ D P r, ?_, ?_⟩
  · rw [summe_my_size, my_offset_eq]
  · rw [my_offset_eq]; simp
  · rw [← my_offset_succ]
    have : P - 1 + 1 = P := by omega
    rw [this]
    exact my_offset_nprocs D P hP
  · intro s hs
    rw [← my_offset_succ]
    exact my_offset_mono D P _ _ (by omega)

/-- Witness for C4: rank 2 of three ranks on seven rows. -/
theorem C4_offsets_tile_witness :
    my_offset 7 3 2 = 2 * (7 / 3) + min 2 (7 % 3) ∧
    my_offset 7 3 2 = ∑ i in Finset.range 2, my_size 7 3 i ∧
    my_offset 7 3 0 = 0 ∧
    my_offset 7 3 (2 + 1) = my_offset 7 3 2 + my_size 7 3 2 ∧
    my_offset 7 3 (3 - 1) + my_size 7 3 (3 - 1) = 7 ∧
    (∀ s, s < 2 → my_offset 7 3 s + my_size 7 3 s ≤ my_offset 7 3 2) :=
  C4_offsets_tile 7 3 2 (by decide)

/-- C5 (balanced bands).  For every `D` and `P ≥ 1` a rank below `D mod P` owns
`D / P + 1` rows and every other rank owns `D / P` rows; exactly `D mod P` of the
`P` ranks own the larger band; two bands differ by at most one row and the band
size does not grow with the rank. -/
theorem C5_balanced (D P : Nat) (hP : 1 ≤ P) :
    (∀ r, r < D % P → my_size D P r = D / P + 1) ∧
    (∀ r, ¬ r < D % P → my_size D P r = D / P) ∧
    ((Finset.range P).filter (fun r => my_size D P r = D / P + 1)).card = D % P ∧
    (∀ r s, my_size D P r ≤ my_size D P s + 1) ∧
    (∀ r s, r ≤ s → my_size D P s ≤ my_size D P r) := by
  have hm : D % P < P := Nat.mod_lt _ (by omega)
  refine ⟨?_, ?_, ?_, ?_, ?_⟩
  · intro r h
    simp [my_size, h]
  · intro r h
    simp [my_size, h]
  · have : (Finset.range P).filter (fun r => my_size D P r = D / P + 1)
        = Finset.range (D % P) := by
      ext r
      simp only [Finset.mem_filter, Finset.mem_range, my_size]
      constructor
      · rintro ⟨_, h2⟩
        by_contra hc
        rw [if_neg hc] at h2
        omega
      · intro h
        exact ⟨by omega, by rw [if_pos h]⟩
    rw [this, Finset.card_range]
  · intro r s
    unfold my_size
    split_ifs <;> omega
  · intro r s hrs
    unfold my_size
    split_ifs <;> omega

/-- Witness for C5: seven rows on three ranks. -/
theorem C5_balanced_witness :
    (∀ r, r < 7 % 3 → my_size 7 3 r = 7 / 3 + 1) ∧
    (∀ r, ¬ r < 7 % 3 → my_size 7 3 r = 7 / 3) ∧
    ((Finset.range 3).filter (fun r => my_size 7 3 r = 7 / 3 + 1)).card = 7 % 3 ∧
    (∀ r s, my_size 7 3 r ≤ my_size 7 3 s + 1) ∧
    (∀ r s, r ≤ s → my_size 7 3 s ≤ my_size 7 3 r) :=
  C5_balanced 7 3 (by decide)

/-! ## Helpers for the claims on the distributed run -/

/-- With one rank the exchange names rank `1`, which does not exist. -/
theorem austausch_eins (D : Nat) (welt : Nat → Proc) : austausch D 1 welt = none := by
  have h : austausch_rang D 1 welt 0 = none := by
    unfold austausch_rang nachbar_bestimmen ROOT
    simp [rang_ok]
  unfold austausch
  simp [List.range_succ, h]

theorem lauf_eins (D : Nat) (s : Zustand) : ∀ k, GOL_parallel_lauf D 1 (k + 1) s = none := by
  intro k
  simp only [GOL_parallel_lauf]
  cases ht : GOL_parallel_lauf D 1 k s with
  | none => rfl
  | some t =>
    simp only [Option.bind, GOL_parallel_runde, austausch_eins]

/-! ## Claims on the two runs -/

/-- C2 (the distributed run reproduces the serial reference).  For `2 ≤ P ≤ D`
and `N ≥ 1` generations, with every process seeded with its band of the same
initial grid, `GOL_parallel` completes and cell `(g - 1, j)` of the assembled
grid `voll` equals cell `(g, j)` of the grid of `GOL_seriell` after `N`
generations, for all `1 ≤ g, j ≤ D`. -/
theorem C2_distributed_equals_serial (D P N : Nat) (roh : Nat → Proc)
    (roh_voll roh_sp roh_zw : Speicher) (zufall : Nat → Nat → Nat)
    (hP : 2 ≤ P) (hPD : P ≤ D) (hN : 1 ≤ N) :
    ∃ s,
      GOL_parallel D P N roh roh_voll (fun r i j => zufall (my_offset D P r + i) j) = some s ∧
      ∀ g j, 1 ≤ g → g ≤ D → 1 ≤ j → j ≤ D →
        lies D s.voll (g - 1) j =
          lies D (GOL_seriell D N roh_sp roh_zw zufall).voll_spielfeld g j := by
  obtain ⟨s, hs, _, hv⟩ := parallel_gleich_seriell D P roh roh_voll roh_sp roh_zw zufall hP hPD N
  exact ⟨s, hs, fun g j h1 h2 _ h4 => hv hN g h1 h2 j (by omega)⟩

/-- Witness for C2: a `2 x 2` grid of live cells on two ranks, one generation. -/
theorem C2_distributed_equals_serial_witness :
    ∃ s,
      GOL_parallel 2 2 1 (fun _ => ⟨fun _ => 0, fun _ => 0⟩) (fun _ => 0)
        (fun r i j => (fun _ _ => 1) (my_offset 2 2 r + i) j) = some s ∧
      ∀ g j, 1 ≤ g → g ≤ 2 → 1 ≤ j → j ≤ 2 →
        lies 2 s.voll (g - 1) j =
          lies 2 (GOL_seriell 2 1 (fun _ => 0) (fun _ => 0) (fun _ _ => 1)).voll_spielfeld g j :=
  C2_distributed_equals_serial 2 2 1 (fun _ => ⟨fun _ => 0, fun _ => 0⟩) (fun _ => 0)
    (fun _ => 0) (fun _ => 0) (fun _ _ => 1) (by decide) (by decide) (by decide)

/-- C8 (serial boundary invariant).  After any number `k` of generations of
`GOL_seriell`, every cell of row `0`, row `D + 1`, column `0` and column `D + 1`
is `0` in the current and in the next buffer; the update loops leave every flat
index that is not the index of a cell of rows `1..D` and columns `1..D` as it
was. -/
theorem C8_serial_border (D k : Nat) (roh_sp roh_zw : Speicher) (zufall : Nat → Nat → Nat) :
    (∀ i j, i ≤ D + 1 → j ≤ D + 1 → (i = 0 ∨ i = D + 1 ∨ j = 0 ∨ j = D + 1) →
      lies D (GOL_seriell D k roh_sp roh_zw zufall).voll_spielfeld i j = 0 ∧
      lies D (GOL_seriell D k roh_sp roh_zw zufall).voll_zwischen i j = 0) ∧
    (∀ (sp zw : Speicher) (b : Nat),
      (∀ i j, 1 ≤ i → i ≤ D → 1 ≤ j → j ≤ D → b ≠ adr D i j) →
      GOL_seriell_update D sp zw b = zw b) := by
  constructor
  · intro i j hi hj h
    obtain ⟨⟨a1, a2, a3⟩, ⟨b1, b2, b3⟩⟩ := seriell_rand D roh_sp roh_zw zufall k
    rcases h with h | h | h | h
    · rw [h]; exact ⟨a2 j hj, b2 j hj⟩
    · rw [h]; exact ⟨a3 j hj, b3 j hj⟩
    · rw [h]; exact ⟨(a1 i hi).1, (b1 i hi).1⟩
    · rw [h]; exact ⟨(a1 i hi).2, (b1 i hi).2⟩
  · intro sp zw b h
    exact update_sonst D D sp zw b h

/-- Witness for C8: a `2 x 2` grid after three generations. -/
theorem C8_serial_border_witness :
    lies 2 (GOL_seriell 2 3 (fun _ => 7) (fun _ => 7) (fun _ _ => 1)).voll_spielfeld 0 1 = 0 :=
  ((C8_serial_border 2 3 (fun _ => 7) (fun _ => 7) (fun _ _ => 1)).1 0 1 (by decide)
    (by decide) (Or.inl rfl)).1

/-- C10, as stated, fails: with one rank and one generation on a `1 x 1` grid
`GOL_parallel` produces no grid at all, so none that equals the serial one. -/
theorem C10_counterexample :
    ¬ ∃ s, GOL_parallel 1 1 1 (fun _ => ⟨fun _ => 0, fun _ => 0⟩) (fun _ => 0)
        (fun _ _ _ => 0) = some s ∧
      ∀ g j, 1 ≤ g → g ≤ 1 → 1 ≤ j → j ≤ 1 →
        lies 1 s.voll (g - 1) j =
          lies 1 (GOL_seriell 1 1 (fun _ => 0) (fun _ => 0) (fun _ _ => 0)).voll_spielfeld g j := by
  rintro ⟨s, hs, _⟩
  unfold GOL_parallel at hs
  rw [lauf_eins] at hs
  cases hs

/-- C10 amended.  With one rank `GOL_parallel` produces no grid for any `N ≥ 1`:
rank `0` is given the down-neighbour `1`, which is no rank, and the first halo
exchange fails.  With two ranks, the smallest count the distributed path is
entered with, `D ≥ 2` and `N ≥ 1`, it completes and row `g - 1` of the
assembled grid equals row `g` of the grid of `GOL_seriell` after `N` generations
in all `D + 2` columns, for `1 ≤ g ≤ D`. -/
theorem C10_two_workers (D N : Nat) (roh : Nat → Proc) (roh_voll roh_sp roh_zw : Speicher)
    (zufall : Nat → Nat → Nat) (zufall1 : Nat → Nat → Nat → Nat) (hN : 1 ≤ N) :
    (nachbar_bestimmen 1 0).hole_unten = some 1 ∧
    GOL_parallel D 1 N roh roh_voll zufall1 = none ∧
    (2 ≤ D → ∃ s,
      GOL_parallel D 2 N roh roh_voll (fun r i j => zufall (my_offset D 2 r + i) j) = some s ∧
      ∀ g j, 1 ≤ g → g ≤ D → j ≤ D + 1 →
        lies D s.voll (g - 1) j =
          lies D (GOL_seriell D N roh_sp roh_zw zufall).voll_spielfeld g j) := by
  refine ⟨rfl, ?_, ?_⟩
  · obtain ⟨k, rfl⟩ : ∃ k, N = k + 1 := ⟨N - 1, by omega⟩
    unfold GOL_parallel
    exact lauf_eins D _ k
  · intro hD
    obtain ⟨s, hs, _, hv⟩ :=
      parallel_gleich_seriell D 2 roh roh_voll roh_sp roh_zw zufall (by omega) hD N
    exact ⟨s, hs, fun g j h1 h2 h3 => hv hN g h1 h2 j h3⟩

/-- Witness for C10 amended: a `2 x 2` grid, one generation. -/
theorem C10_two_workers_witness :
    GOL_parallel 2 1 1 (fun _ => ⟨fun _ => 0, fun _ => 0⟩) (fun _ => 0) (fun _ _ _ => 1)
      = none :=
  (C10_two_workers 2 1 (fun _ => ⟨fun _ => 0, fun _ => 0⟩) (fun _ => 0) (fun _ => 0)
    (fun _ => 0) (fun _ _ => 1) (fun _ _ _ => 1) (by decide)).2.1

/-! ## The glider -/

theorem lies_speicher_von (dim : Nat) (T : Nat → Nat → Int) (i j : Nat) (hj : j ≤ dim + 1) :
    lies dim (speicher_von dim T) i j = T i j := by
  unfold lies speicher_von adr
  have h1 : ((dim + 2) * i + j) / (dim + 2) = i := by
    rw [Nat.mul_add_div (by omega), Nat.div_eq_of_lt (by omega)]
    rfl
  have h2 : ((dim + 2) * i + j) % (dim + 2) = j := by
    rw [Nat.mul_add_mod, Nat.mod_eq_of_lt (by omega)]
  rw [h1, h2]

/-- One update of a grid that holds the table `T` gives the grid that holds the
next table. -/
theorem tabelle_schritt (D : Nat) (sp zw : Speicher) (T T2 : Nat → Nat → Int)
    (hT : ∀ i j, i ≤ D + 1 → j ≤ D + 1 → lies D sp i j = T i j)
    (hzw : rand_tot D D zw)
    (hstep : ∀ i, i ≤ D + 1 → ∀ j, j ≤ D + 1 →
      T2 i j = if 1 ≤ i ∧ i ≤ D ∧ 1 ≤ j ∧ j ≤ D then regel D (speicher_von D T) i j else 0) :
    ∀ i j, i ≤ D + 1 → j ≤ D + 1 → lies D (update D D sp zw) i j = T2 i j := by
  intro i j hi hj
  rw [hstep i hi j hj]
  by_cases hin : 1 ≤ i ∧ i ≤ D ∧ 1 ≤ j ∧ j ≤ D
  · rw [if_pos hin, update_innen D D sp zw i j hin.1 hin.2.1 hin.2.2.1 hin.2.2.2]
    have := regel_verschoben D sp (speicher_von D T) 0 i j hin.1 (by
      intro a b h1 h2 h3
      rw [Nat.zero_add, lies_speicher_von D T a b (by omega)]
      exact hT a b (by omega) (by omega))
    rw [Nat.zero_add] at this
    exact this
  · rw [if_neg hin, update_aussen D D sp zw i j hj (by omega)]
    obtain ⟨h1, h2, h3⟩ := hzw
    by_cases h0 : i = 0
    · rw [h0]; exact h2 j hj
    · by_cases hl : i = D + 1
      · rw [hl]; exact h3 j hj
      · have hj2 : j = 0 ∨ j = D + 1 := by omega
        rcases hj2 with h | h <;> rw [h]
        · exact (h1 i hi).1
        · exact (h1 i hi).2

theorem glider_schritt_0 : ∀ i, i ≤ 5 + 1 → ∀ j, j ≤ 5 + 1 →
    tabelle (glider 1) i j =
      if 1 ≤ i ∧ i ≤ 5 ∧ 1 ≤ j ∧ j ≤ 5 then regel 5 (speicher_von 5 (tabelle (glider 0))) i j
      else 0 := by
  decide

theorem glider_schritt_1 : ∀ i, i ≤ 5 + 1 → ∀ j, j ≤ 5 + 1 →
    tabelle (glider 2) i j =
      if 1 ≤ i ∧ i ≤ 5 ∧ 1 ≤ j ∧ j ≤ 5 then regel 5 (speicher_von 5 (tabelle (glider 1))) i j
      else 0 := by
  decide

theorem glider_schritt_2 : ∀ i, i ≤ 5 + 1 → ∀ j, j ≤ 5 + 1 →
    tabelle (glider 3) i j =
      if 1 ≤ i ∧ i ≤ 5 ∧ 1 ≤ j ∧ j ≤ 5 then regel 5 (speicher_von 5 (tabelle (glider 2))) i j
      else 0 := by
  decide

theorem glider_schritt_3 : ∀ i, i ≤ 5 + 1 → ∀ j, j ≤ 5 + 1 →
    tabelle glider_verschoben i j =
      if 1 ≤ i ∧ i ≤ 5 ∧ 1 ≤ j ∧ j ≤ 5 then regel 5 (speicher_von 5 (tabelle (glider 3))) i j
      else 0 := by
  decide

theorem glider_rand : ∀ i, i ≤ 5 + 1 → ∀ j, j ≤ 5 + 1 →
    ¬ (1 ≤ i ∧ i ≤ 5 ∧ 1 ≤ j ∧ j ≤ 5) → tabelle (glider 0) i j = 0 := by
  decide

/-- A grid seeded from the cells of `l`, all interior, holds the table of `l`. -/
theorem saat_tabelle (D : Nat) (l : List (Nat × Nat)) (roh : Speicher)
    (hl : ∀ i, i ≤ D + 1 → ∀ j, j ≤ D + 1 →
      ¬ (1 ≤ i ∧ i ≤ D ∧ 1 ≤ j ∧ j ≤ D) → tabelle l i j = 0) :
    ∀ i j, i ≤ D + 1 → j ≤ D + 1 →
      lies D (saat D D (saat_von l) (rand_nullen D D roh)) i j = tabelle l i j := by
  intro i j hi hj
  by_cases hin : 1 ≤ i ∧ i ≤ D ∧ 1 ≤ j ∧ j ≤ D
  · rw [saat_innen D D _ _ i j hin.1 hin.2.1 hin.2.2.1 hin.2.2.2]
    unfold saat_von tabelle
    split_ifs <;> rfl
  · rw [saat_aussen D D _ _ i j hj (by omega), rand_nullen_rand D D roh i j hi hj (by omega),
      hl i hi j hj hin]

theorem seriell_null (D : Nat) (roh_sp roh_zw : Speicher) (zufall : Nat → Nat → Nat) :
    (GOL_seriell D 0 roh_sp roh_zw zufall).voll_spielfeld
      = saat D D zufall (rand_nullen D D roh_sp) := rfl

theorem seriell_succ (D k : Nat) (roh_sp roh_zw : Speicher) (zufall : Nat → Nat → Nat) :
    (GOL_seriell D (k + 1) roh_sp roh_zw zufall).voll_spielfeld
      = update D D (GOL_seriell D k roh_sp roh_zw zufall).voll_spielfeld
          (GOL_seriell D k roh_sp roh_zw zufall).voll_zwischen := rfl

/-- The serial run on the glider: the grid of generation `0` and of generation `4`. -/
theorem glider_seriell (roh_sp roh_zw : Speicher) :
    (∀ i j, i ≤ 5 + 1 → j ≤ 5 + 1 →
      lies 5 (GOL_seriell 5 0 roh_sp roh_zw (saat_von (glider 0))).voll_spielfeld i j
        = tabelle (glider 0) i j) ∧
    (∀ i j, i ≤ 5 + 1 → j ≤ 5 + 1 →
      lies 5 (GOL_seriell 5 4 roh_sp roh_zw (saat_von (glider 0))).voll_spielfeld i j
        = tabelle glider_verschoben i j) := by
  have r := seriell_rand 5 roh_sp roh_zw (saat_von (glider 0))
  have g0 : ∀ i j, i ≤ 5 + 1 → j ≤ 5 + 1 →
      lies 5 (GOL_seriell 5 0 roh_sp roh_zw (saat_von (glider 0))).voll_spielfeld i j
        = tabelle (glider 0) i j := by
    rw [seriell_null]
    exact saat_tabelle 5 (glider 0) roh_sp glider_rand
  have g1 : ∀ i j, i ≤ 5 + 1 → j ≤ 5 + 1 →
      lies 5 (GOL_seriell 5 (0 + 1) roh_sp roh_zw (saat_von (glider 0))).voll_spielfeld i j
        = tabelle (glider 1) i j := by
    rw [seriell_succ]
    exact tabelle_schritt 5 _ _ _ _ g0 (r 0).2 glider_schritt_0
  have g2 : ∀ i j, i ≤ 5 + 1 → j ≤ 5 + 1 →
      lies 5 (GOL_seriell 5 (0 + 1 + 1) roh_sp roh_zw (saat_von (glider 0))).voll_spielfeld i j
        = tabelle (glider 2) i j := by
    rw [seriell_succ]
    exact tabelle_schritt 5 _ _ _ _ g1 (r _).2 glider_schritt_1
  have g3 : ∀ i j, i ≤ 5 + 1 → j ≤ 5 + 1 →
      lies 5 (GOL_seriell 5 (0 + 1 + 1 + 1) roh_sp roh_zw
        (saat_von (glider 0))).voll_spielfeld i j = tabelle (glider 3) i j := by
    rw [seriell_succ]
    exact tabelle_schritt 5 _ _ _ _ g2 (r _).2 glider_schritt_2
  have g4 : ∀ i j, i ≤ 5 + 1 → j ≤ 5 + 1 →
      lies 5 (GOL_seriell 5 (0 + 1 + 1 + 1 + 1) roh_sp roh_zw
        (saat_von (glider 0))).voll_spielfeld i j = tabelle glider_verschoben i j := by
    rw [seriell_succ]
    exact tabelle_schritt 5 _ _ _ _ g3 (r _).2 glider_schritt_3
  exact ⟨g0, g4⟩

/-- C11 (glider under the rule).  Seed the `5 x 5` serial grid with the five
cells `(2,3), (3,4), (4,2), (4,3), (4,4)` of a glider in the central `3 x 3`
block and nothing else.  The grid then holds exactly these live cells, and
after four generations of `GOL_seriell` its live cells are exactly the five cells
`(3,4), (4,5), (5,3), (5,4), (5,5)`, the same glider one row down and one column
to the right; every other cell of rows and columns `0..6` is `0`. -/
theorem C11_glider (roh_sp roh_zw : Speicher) (i j : Nat) (hi : i ≤ 6) (hj : j ≤ 6) :
    lies 5 (GOL_seriell 5 0 roh_sp roh_zw (saat_von (glider 0))).voll_spielfeld i j
      = (if (i, j) ∈ [(2, 3), (3, 4), (4, 2), (4, 3), (4, 4)] then 1 else 0) ∧
    lies 5 (GOL_seriell 5 4 roh_sp roh_zw (saat_von (glider 0))).voll_spielfeld i j
      = (if (i, j) ∈ [(3, 4), (4, 5), (5, 3), (5, 4), (5, 5)] then 1 else 0) ∧
    glider_verschoben = [(3, 4), (4, 5), (5, 3), (5, 4), (5, 5)] := by
  obtain ⟨a, b⟩ := glider_seriell roh_sp roh_zw
  exact ⟨a i j hi hj, b i j hi hj, rfl⟩

/-- Witness for C11: the cell `(5, 5)` is alive after four generations. -/
theorem C11_glider_witness :
    lies 5 (GOL_seriell 5 4 (fun _ => 7) (fun _ => 9) (saat_von (glider 0))).voll_spielfeld 5 5
      = (if ((5, 5) : Nat × Nat) ∈ [(3, 4), (4, 5), (5, 3), (5, 4), (5, 5)] then 1 else 0) :=
  (C11_glider (fun _ => 7) (fun _ => 9) 5 5 (by decide) (by decide)).2.1

/-! ## More ranks than rows -/

theorem my_offset_gross (D P : Nat) (h : D < P) :
    my_offset D P D = D ∧ my_size D P D = 0 := by
  have h1 : D / P = 0 := Nat.div_eq_of_lt h
  have h2 : D % P = D := Nat.mod_eq_of_lt h
  unfold my_offset my_size
  rw [h1, h2]
  simp

/-- With more ranks than rows the assembly reads the row pointer `voll[D]`. -/
theorem sammeln_none (D P : Nat) (welt : Nat → Proc) (voll : Speicher) (h : D < P) :
    sammeln D P welt voll = none := by
  unfold sammeln
  rw [if_neg]
  rintro ⟨hall, hD⟩
  rw [List.all_eq_true] at hall
  have := hall D (List.mem_range'_1.mpr ⟨hD, by omega⟩)
  rw [(my_offset_gross D P h).1] at this
  simp at this

theorem lauf_gross (D P : Nat) (s : Zustand) (h : D < P) :
    ∀ k, GOL_parallel_lauf D P (k + 1) s = none := by
  intro k
  simp only [GOL_parallel_lauf]
  cases ht : GOL_parallel_lauf D P k s with
  | none => rfl
  | some t =>
    simp only [Option.bind, GOL_parallel_runde]
    cases ha : austausch D P t.welt with
    | none => rfl
    | some w => simp only [sammeln_none D P _ _ h]

/-- A band without rows: the update loops store nothing. -/
theorem update_leer (dim : Nat) (sp zw : Speicher) : update 0 dim sp zw = zw := rfl

/-! ## What `GOL_gfx` paints -/

theorem foldl_anhang_mem {α β : Type} (g : α → List β) (p : β) :
    ∀ (l : List α) (acc : List β),
      p ∈ l.foldl (fun a x => a ++ g x) acc ↔ p ∈ acc ∨ ∃ x, x ∈ l ∧ p ∈ g x := by
  intro l
  induction l with
  | nil => intro acc; simp
  | cons y ys ih =>
    intro acc
    rw [List.foldl_cons, ih]
    simp only [List.mem_append, List.mem_cons]
    constructor
    · rintro ((h | h) | ⟨x, hx, hp⟩)
      · exact Or.inl h
      · exact Or.inr ⟨y, Or.inl rfl, h⟩
      · exact Or.inr ⟨x, Or.inr hx, hp⟩
    · rintro (h | ⟨x, hx | hx, hp⟩)
      · exact Or.inl (Or.inl h)
      · rw [hx] at hp; exact Or.inl (Or.inr hp)
      · exact Or.inr ⟨x, hx, hp⟩

/-- The squares painted by `GOL_gfx`: one for every live cell of the rows
`1.._dim-1` and columns `1.._dim-1`, and no other. -/
theorem GOL_gfx_mem (cell_h : Nat) (spielfeld : Speicher) (D : Nat) (p : Nat × Nat) :
    p ∈ GOL_gfx cell_h spielfeld D ↔
      ∃ i j, 1 ≤ i ∧ i < D ∧ 1 ≤ j ∧ j < D ∧ lies D spielfeld i j = 1 ∧
        p = ((i - 1) * cell_h, (j - 1) * cell_h) := by
  have inner : ∀ (i : Nat) (surf : List (Nat × Nat)),
      (List.range' 1 (D - 1)).foldl
        (fun surf2 j =>
          if lies D spielfeld i j = 1 then
            surf2 ++ [((i - 1) * cell_h, (j - 1) * cell_h)]
          else surf2) surf
      = (List.range' 1 (D - 1)).foldl
        (fun a j => a ++ (if lies D spielfeld i j = 1 then
          [((i - 1) * cell_h, (j - 1) * cell_h)] else [])) surf := by
    intro i surf
    congr 1
    funext a j
    split_ifs <;> simp
  have outer : GOL_gfx cell_h spielfeld D
      = (List.range' 1 (D - 1)).foldl
        (fun a i => a ++ (List.range' 1 (D - 1)).foldl
          (fun a j => a ++ (if lies D spielfeld i j = 1 then
            [((i - 1) * cell_h, (j - 1) * cell_h)] else [])) []) [] := by
    unfold GOL_gfx
    congr 1
    funext surf i
    rw [inner]
    generalize (List.range' 1 (D - 1)) = l
    induction l generalizing surf with
    | nil => simp
    | cons y ys ih =>
      rw [List.foldl_cons, List.foldl_cons, ih, ih ([] ++ _)]
      simp
  rw [outer, foldl_anhang_mem]
  simp only [List.not_mem_nil, false_or, foldl_anhang_mem, List.mem_range'_1]
  constructor
  · rintro ⟨i, ⟨hi1, hi2⟩, j, ⟨hj1, hj2⟩, hp⟩
    split_ifs at hp with hc
    · simp only [List.mem_singleton] at hp
      exact ⟨i, j, hi1, by omega, hj1, by omega, hc, hp⟩
    · simp at hp
  · rintro ⟨i, j, hi1, hi2, hj1, hj2, hc, hp⟩
    refine ⟨i, ⟨hi1, by omega⟩, j, ⟨hj1, by omega⟩, ?_⟩
    rw [if_pos hc]
    simp [hp]

/-! ## Claims on the neighbours, the degenerate partition and the rendering -/

/-- C13, as stated, fails for one worker: rank `0` is then the last rank too, and
the claim gives it no neighbour on either side, but `GOL_parallel` assigns it the
down-neighbour `1`, a rank outside `[0, 1)`. -/
theorem C13_counterexample :
    ¬ ((nachbar_bestimmen 1 0).sende_oben = none ∧ (nachbar_bestimmen 1 0).hole_oben = none ∧
      (nachbar_bestimmen 1 0).sende_unten = none ∧ (nachbar_bestimmen 1 0).hole_unten = none) := by
  decide

/-- C13 amended.  For `P ≥ 2` workers and every rank `r < P`, the rank sends to
the neighbour it receives from on either side; the up-neighbour is `r - 1` when
`r > 0` and none when `r = 0`; the down-neighbour is `r + 1` when `r < P - 1` and
none when `r = P - 1`; every assigned neighbour is a rank below `P`. -/
theorem C13_neighbours (P r : Nat) (hP : 2 ≤ P) (hr : r < P) :
    (nachbar_bestimmen P r).sende_oben = (nachbar_bestimmen P r).hole_oben ∧
    (nachbar_bestimmen P r).sende_unten = (nachbar_bestimmen P r).hole_unten ∧
    (0 < r → (nachbar_bestimmen P r).hole_oben = some (r - 1)) ∧
    (r = 0 → (nachbar_bestimmen P r).hole_oben = none) ∧
    (r < P - 1 → (nachbar_bestimmen P r).hole_unten = some (r + 1)) ∧
    (r = P - 1 → (nachbar_bestimmen P r).hole_unten = none) ∧
    (∀ q, (nachbar_bestimmen P r).hole_oben = some q ∨
        (nachbar_bestimmen P r).hole_unten = some q → q < P) := by
  rw [nachbar_eq P r hP hr]
  refine ⟨rfl, rfl, ?_, ?_, ?_, ?_, ?_⟩
  · intro h
    simp only
    rw [if_neg (by omega)]
  · intro h
    simp only
    rw [if_pos h]
  · intro h
    simp only
    rw [if_pos (by omega)]
  · intro h
    simp only
    rw [if_neg (by omega)]
  · intro q hq
    simp only at hq
    rcases hq with hq | hq
    · split_ifs at hq
      simp only [Option.some.injEq] at hq
      omega
    · split_ifs at hq
      simp only [Option.some.injEq] at hq
      omega

/-- Witness for C13 amended: the middle rank of three. -/
theorem C13_neighbours_witness :
    (nachbar_bestimmen 3 1).hole_oben = some (1 - 1) ∧
    (nachbar_bestimmen 3 1).hole_unten = some (1 + 1) :=
  ⟨(C13_neighbours 3 1 (by decide) (by decide)).2.2.1 (by decide),
    (C13_neighbours 3 1 (by decide) (by decide)).2.2.2.2.1 (by decide)⟩

/-- C14 at the failing input: one row on two ranks.  Rank `1` owns no row and its
offset is `1`, the number of rows of `voll`, so the row pointer `voll[all_offset[1]]`
the coordinator reads is outside the table; the end of the band stays within
`D`. -/
theorem C14_index_out_of_range :
    my_size 1 2 1 = 0 ∧ my_offset 1 2 1 = 1 ∧ ¬ (my_offset 1 2 1 < 1) ∧
    my_offset 1 2 1 + my_size 1 2 1 ≤ 1 ∧
    sammeln 1 2 (fun _ => ⟨fun _ => 0, fun _ => 0⟩) (fun _ => 0) = none :=
  ⟨by decide, by decide, by decide, by decide, sammeln_none 1 2 _ _ (by decide)⟩

/-- C15 at the failing input: a `2 x 2` grid with all four cells alive and squares
of side `5`.  `GOL_gfx` paints the square of cell `(1, 1)` only; the cells of row
`2` and of column `2` are alive and get no square. -/
theorem C15_last_row_and_column_not_painted :
    (∀ i j, 1 ≤ i → i ≤ 2 → 1 ≤ j → j ≤ 2 →
      lies 2 (speicher_von 2 (tabelle [(1, 1), (1, 2), (2, 1), (2, 2)])) i j = 1) ∧
    GOL_gfx 5 (speicher_von 2 (tabelle [(1, 1), (1, 2), (2, 1), (2, 2)])) 2 = [(0, 0)] := by
  constructor
  · intro i j h1 h2 h3 h4
    rw [lies_speicher_von 2 _ i j (by omega)]
    have hi : i = 1 ∨ i = 2 := by omega
    have hj : j = 1 ∨ j = 2 := by omega
    rcases hi with hi | hi <;> rcases hj with hj | hj <;> rw [hi, hj] <;> decide
  · decide

/-- C17 (double buffering).  One generation of `GOL_seriell`, and of
`GOL_parallel` on a rank `r < P`: the new next buffer is the old current buffer,
unchanged at every flat index; every interior cell of the new current buffer is
the value of the rule on the old current buffer, whatever the old next buffer
held; and at every other flat index the new current buffer is the old next
buffer. -/
theorem C17_double_buffer (D P r : Nat) (s : Seriell) (w : Nat → Proc) :
    ((GOL_seriell_runde D s).voll_zwischen = s.voll_spielfeld ∧
      (∀ i j, 1 ≤ i → i ≤ D → 1 ≤ j → j ≤ D →
        lies D (GOL_seriell_runde D s).voll_spielfeld i j = regel D s.voll_spielfeld i j) ∧
      (∀ b, (∀ i j, 1 ≤ i → i ≤ D → 1 ≤ j → j ≤ D → b ≠ adr D i j) →
        (GOL_seriell_runde D s).voll_spielfeld b = s.voll_zwischen b)) ∧
    (r < P →
      (rechnen D P w r).my_zwischen = (w r).my_spielfeld ∧
      (∀ i j, 1 ≤ i → i ≤ my_size D P r → 1 ≤ j → j ≤ D →
        lies D (rechnen D P w r).my_spielfeld i j = regel D (w r).my_spielfeld i j) ∧
      (∀ b, (∀ i j, 1 ≤ i → i ≤ my_size D P r → 1 ≤ j → j ≤ D → b ≠ adr D i j) →
        (rechnen D P w r).my_spielfeld b = (w r).my_zwischen b)) := by
  constructor
  · refine ⟨rfl, ?_, ?_⟩
    · intro i j h1 h2 h3 h4
      exact update_innen D D _ _ i j h1 h2 h3 h4
    · intro b hb
      exact update_sonst D D _ _ b hb
  · intro hr
    have e : rechnen D P w r =
        { my_spielfeld :=
            GOL_parallel_update D P r (w r).my_spielfeld (w r).my_zwischen
          my_zwischen := (w r).my_spielfeld } := by
      unfold rechnen
      rw [if_pos hr]
    rw [e]
    unfold GOL_parallel_update
    refine ⟨rfl, ?_, ?_⟩
    · intro i j h1 h2 h3 h4
      exact update_innen _ D _ _ i j h1 h2 h3 h4
    · intro b hb
      exact update_sonst _ D _ _ b hb

/-- Witness for C17: rank `1` of two on a `2 x 2` grid. -/
theorem C17_double_buffer_witness :
    (rechnen 2 2 (fun _ => ⟨fun _ => 1, fun _ => 0⟩) 1).my_zwischen
      = ((fun _ => ⟨fun _ => 1, fun _ => 0⟩ : Nat → Proc) 1).my_spielfeld :=
  ((C17_double_buffer 2 2 1 ⟨fun _ => 1, fun _ => 0⟩ (fun _ => ⟨fun _ => 1, fun _ => 0⟩)).2
    (by decide)).1

/-- C20 at the failing input: a `3 x 3` grid whose only live cell is the global
cell `(2, 1)`, squares of side `5`.  The serial grid holds it in row `2`, the
assembled grid `voll` in row `1`.  `GOL_gfx` paints it at `y = 5` (row `1` of the
surface) from the serial grid and at `y = 0` (row `0`) from `voll`. -/
theorem C20_rendering_differs :
    (∀ g j, 1 ≤ g → g ≤ 3 → j ≤ 3 + 1 →
      lies 3 (speicher_von 3 (tabelle [(1, 1)])) (g - 1) j
        = lies 3 (speicher_von 3 (tabelle [(2, 1)])) g j) ∧
    GOL_gfx 5 (speicher_von 3 (tabelle [(2, 1)])) 3 = [(5, 0)] ∧
    GOL_gfx 5 (speicher_von 3 (tabelle [(1, 1)])) 3 = [(0, 0)] := by
  refine ⟨?_, by decide, by decide⟩
  intro g j h1 h2 h3
  rw [lies_speicher_von 3 _ _ j h3, lies_speicher_von 3 _ _ j h3]
  have hg : g = 1 ∨ g = 2 ∨ g = 3 := by omega
  have hj : j = 0 ∨ j = 1 ∨ j = 2 ∨ j = 3 ∨ j = 4 := by omega
  rcases hg with hg | hg | hg <;> rcases hj with hj | hj | hj | hj | hj <;>
    rw [hg, hj] <;> decide

/-! ## Cells stay binary -/

/-- C12, as stated, fails at one worker: `GOL_parallel` with `P = 1` produces no
assembled grid after four generations of the glider, so none that equals the
shifted glider. -/
theorem C12_counterexample :
    ¬ ∃ s, GOL_parallel 5 1 4 (fun _ => ⟨fun _ => 0, fun _ => 0⟩) (fun _ => 0)
        (fun r i j => saat_von (glider 0) (my_offset 5 1 r + i) j) = some s ∧
      ∀ g j, 1 ≤ g → g ≤ 5 → 1 ≤ j → j ≤ 5 →
        lies 5 s.voll (g - 1) j
          = (if (g, j) ∈ [(3, 4), (4, 5), (5, 3), (5, 4), (5, 5)] then 1 else 0) := by
  rintro ⟨s, hs, _⟩
  unfold GOL_parallel at hs
  rw [lauf_eins] at hs
  cases hs

/-- C12 amended.  For the glider seeded in the `5 x 5` grid, with 2 and with 3
workers `GOL_parallel` completes four generations and cell `(g - 1, j)` of the
assembled grid is `1` exactly for `(g, j)` among `(3,4), (4,5), (5,3), (5,4),
(5,5)`, the glider moved one cell diagonally, and `0` for every other `1 ≤ g ≤ 5`,
`0 ≤ j ≤ 6`: the same grid for both worker counts, and the grid of `GOL_seriell`,
which the program runs for one worker.  With one worker `GOL_parallel` itself
produces no grid. -/
theorem C12_glider_workers (roh : Nat → Proc) (roh_voll roh_sp roh_zw : Speicher)
    (P : Nat) (hP : P = 2 ∨ P = 3) :
    (∃ s, GOL_parallel 5 P 4 roh roh_voll
        (fun r i j => saat_von (glider 0) (my_offset 5 P r + i) j) = some s ∧
      ∀ g j, 1 ≤ g → g ≤ 5 → j ≤ 6 →
        lies 5 s.voll (g - 1) j
          = (if (g, j) ∈ [(3, 4), (4, 5), (5, 3), (5, 4), (5, 5)] then 1 else 0)) ∧
    (∀ g j, 1 ≤ g → g ≤ 5 → j ≤ 6 →
      lies 5 (GOL_seriell 5 4 roh_sp roh_zw (saat_von (glider 0))).voll_spielfeld g j
        = (if (g, j) ∈ [(3, 4), (4, 5), (5, 3), (5, 4), (5, 5)] then 1 else 0)) ∧
    GOL_parallel 5 1 4 roh roh_voll
      (fun r i j => saat_von (glider 0) (my_offset 5 1 r + i) j) = none := by
  have ser := (glider_seriell roh_sp roh_zw).2
  refine ⟨?_, fun g j _ h2 h3 => ser g j (by omega) (by omega), ?_⟩
  · obtain ⟨s, hs, _, hv⟩ := parallel_gleich_seriell 5 P roh roh_voll roh_sp roh_zw
      (saat_von (glider 0)) (by omega) (by omega) 4
    refine ⟨s, hs, ?_⟩
    intro g j h1 h2 h3
    rw [hv (by omega) g h1 h2 j (by omega)]
    exact ser g j (by omega) (by omega)
  · unfold GOL_parallel
    exact lauf_eins 5 _ 3

/-- Witness for C12 amended: three workers. -/
theorem C12_glider_workers_witness :
    ∃ s, GOL_parallel 5 3 4 (fun _ => ⟨fun _ => 0, fun _ => 0⟩) (fun _ => 0)
        (fun r i j => saat_von (glider 0) (my_offset 5 3 r + i) j) = some s ∧
      ∀ g j, 1 ≤ g → g ≤ 5 → j ≤ 6 →
        lies 5 s.voll (g - 1) j
          = (if (g, j) ∈ [(3, 4), (4, 5), (5, 3), (5, 4), (5, 5)] then 1 else 0) :=
  (C12_glider_workers (fun _ => ⟨fun _ => 0, fun _ => 0⟩) (fun _ => 0) (fun _ => 0)
    (fun _ => 0) 3 (Or.inr rfl)).1

/-! ## Bands without rows -/

theorem my_size_anti (D P r s : Nat) (h : r ≤ s) : my_size D P s ≤ my_size D P r := by
  unfold my_size
  split_ifs <;> omega

/-- A rank without rows starts at row `D`. -/
theorem my_size_null_offset (D P r : Nat) (hP : 1 ≤ P) (h : my_size D P r = 0) :
    my_offset D P r = D := by
  unfold my_size at h
  have h1 : D / P = 0 := (Nat.add_eq_zero_iff.mp h).1
  have h5 : (if r < D % P then 1 else 0) = 0 := (Nat.add_eq_zero_iff.mp h).2
  have h2 : D < P := by
    by_contra hc
    have := (Nat.one_le_div_iff (by omega)).mpr (Nat.le_of_not_lt hc)
    omega
  have h3 : D % P = D := Nat.mod_eq_of_lt h2
  rw [h3] at h5
  have h4 : ¬ r < D := by
    intro hc
    rw [if_pos hc] at h5
    omega
  unfold my_offset
  rw [h1, h3]
  split_ifs <;> omega

/-- A receive of no ints stores nothing, whatever its address. -/
theorem block_leer (m : Speicher) (basis : Nat) (daten : Nat → Int) :
    block_schreiben m basis 0 daten = m := by
  funext b
  unfold block_schreiben
  rw [if_neg (by omega)]

/-- Where the assembly of `GOL_parallel` succeeds it leaves the grid
`sammeln_daten`. -/
theorem sammeln_eq_daten (D P : Nat) (welt : Nat → Proc) (voll v : Speicher)
    (h : sammeln D P welt voll = some v) : v = sammeln_daten D P welt voll := by
  unfold sammeln at h
  split_ifs at h with hc
  simp only [Option.some.injEq] at h
  rw [← h]
  rfl

/-- Row `g` of the assembled grid, when `g` lies in the band of rank `r`. -/
theorem sammeln_daten_lies (D P : Nat) (welt : Nat → Proc) (voll : Speicher)
    (r g j : Nat) (hr : r < P)
    (h1 : my_offset D P r ≤ g) (h2 : g < my_offset D P r + my_size D P r)
    (hj : j ≤ D + 1) :
    lies D (sammeln_daten D P welt voll) g j
      = lies D (welt r).my_spielfeld (1 + (g - my_offset D P r)) j := by
  unfold sammeln_daten my_elements ROOT
  rw [block_lies D _ _ 0 _ 1 g j hj]
  by_cases h0 : r = 0
  · subst h0
    have e : my_offset D P 0 = 0 := by rw [my_offset_eq]; simp
    rw [e] at h1 h2
    rw [if_pos ⟨h1, h2⟩, e]
  · have e0 : my_offset D P 0 = 0 := by rw [my_offset_eq]; simp
    have e1 := my_offset_succ D P 0
    have e2 := my_offset_mono D P (0 + 1) r (by omega)
    rw [if_neg (by omega)]
    have body : ∀ (i : Nat) (acc : Speicher),
        block_schreiben acc ((D + 2) * my_offset D P i) (my_size D P i * (D + 2))
            (block_lesen D (welt i).my_spielfeld 1) (adr D g j) =
          if my_offset D P i ≤ g ∧ g < my_offset D P i + my_size D P i then
            lies D (welt i).my_spielfeld (1 + (g - my_offset D P i)) j
          else acc (adr D g j) := by
      intro i acc
      exact block_lies D acc _ (my_offset D P i) _ 1 g j hj
    unfold lies
    apply schleife_set 1 (P - 1) _ voll _ _ r (by omega) (by omega)
    · intro acc
      rw [body, if_pos ⟨h1, h2⟩]
      rfl
    · intro i _ _
      by_cases hi : i = r
      · right; intro acc
        rw [hi, body, if_pos ⟨h1, h2⟩]
        rfl
      · left; intro acc
        rw [body, if_neg]
        intro hb
        exact hi (band_eindeutig D P i r g hb.1 hb.2 h1 h2)

theorem leere_baender_init (D P : Nat) (roh : Nat → Proc) (roh_voll : Speicher)
    (zufall : Nat → Nat → Nat → Nat) :
    leere_baender_tot D P (GOL_parallel_init D P roh roh_voll zufall).welt := by
  intro r _ h0
  have a := rand_tot_saat (my_size D P r) D (zufall r) _
    (rand_tot_rand_nullen (my_size D P r) D (roh r).my_spielfeld)
  have b := rand_tot_rand_nullen (my_size D P r) D (roh r).my_zwischen
  have a3 := a.2.2
  have b3 := b.2.2
  simp only [GOL_parallel_init]
  rw [h0] at a3 b3 ⊢
  exact ⟨a3, b3⟩

theorem leere_baender_austausch (D P : Nat) (welt w : Nat → Proc) (hP : 2 ≤ P)
    (h : leere_baender_tot D P welt) (hw : austausch D P welt = some w) :
    leere_baender_tot D P w := by
  obtain ⟨w2, hw2, spec⟩ := austausch_spec D P welt hP
  rw [hw] at hw2
  simp only [Option.some.injEq] at hw2
  subst hw2
  intro r hr h0
  obtain ⟨hzw, hsp⟩ := spec r hr
  refine ⟨?_, by rw [hzw]; exact (h r hr h0).2⟩
  intro j hj
  rw [hsp 1 j hj]
  split_ifs with c1 c2
  · have hn : my_size D P (r + 1) = 0 := by
      have := my_size_anti D P r (r + 1) (by omega)
      omega
    exact (h (r + 1) c1.2 hn).1 j hj
  · simp at c2
  · exact (h r hr h0).1 j hj

theorem leere_baender_rechnen (D P : Nat) (w : Nat → Proc) (h : leere_baender_tot D P w) :
    leere_baender_tot D P (rechnen D P w) := by
  intro r hr h0
  have e : rechnen D P w r =
      { my_spielfeld := GOL_parallel_update D P r (w r).my_spielfeld (w r).my_zwischen
        my_zwischen := (w r).my_spielfeld } := by
    unfold rechnen
    rw [if_pos hr]
  rw [e]
  unfold GOL_parallel_update
  exact ⟨zeile_tot_update _ D _ _ 1 (by omega) (h r hr h0).2, (h r hr h0).1⟩

/-- After the exchange every row of a process that owns rows, ghost rows
included, is the row of the serial grid at the offset of the rank; ranks without
rows may follow it. -/
theorem halo_gleich_leer (D P : Nat) (welt w : Nat → Proc) (sp : Speicher)
    (hP : 2 ≤ P) (hW : welt_rand_tot D P welt) (hZ : leere_baender_tot D P welt)
    (hS : rand_tot D D sp) (hR : baender_gleich D P welt sp)
    (hw : austausch D P welt = some w) :
    ∀ r, r < P → 1 ≤ my_size D P r → ∀ a, a ≤ my_size D P r + 1 → ∀ b, b ≤ D + 1 →
      lies D (w r).my_spielfeld a b = lies D sp (my_offset D P r + a) b := by
  obtain ⟨w2, hw2, spec⟩ := austausch_spec D P welt hP
  rw [hw] at hw2
  simp only [Option.some.injEq] at hw2
  subst hw2
  intro r hr hsz a ha b hb
  rw [(spec r hr).2 a b hb]
  split_ifs with c1 c2
  · by_cases hn : 1 ≤ my_size D P (r + 1)
    · have e3 : my_offset D P (r + 1) + 1 = my_offset D P r + a := by
        rw [my_offset_succ, c1.1]
        omega
      rw [hR (r + 1) c1.2 1 (by omega) hn b hb, e3]
    · have hn0 : my_size D P (r + 1) = 0 := by omega
      have e := my_size_null_offset D P (r + 1) (by omega) hn0
      rw [my_offset_succ] at e
      have e2 : my_offset D P r + a = D + 1 := by
        rw [c1.1]
        omega
      rw [(hZ (r + 1) c1.2 hn0).1 b hb, e2, hS.2.2 b hb]
  · have e : r - 1 + 1 = r := by omega
    have s := my_offset_succ D P (r - 1)
    rw [e] at s
    have hup : 1 ≤ my_size D P (r - 1) := by
      have := my_size_anti D P (r - 1) r (by omega)
      omega
    have e3 : my_offset D P (r - 1) + my_size D P (r - 1) = my_offset D P r + a := by
      rw [c2.1]
      omega
    rw [hR (r - 1) (by omega) _ hup (by omega) b hb, e3]
  · by_cases h0 : a = 0
    · have hr0 : r = 0 := by
        by_contra hc
        exact c2 ⟨h0, hc⟩
      subst h0
      subst hr0
      have e : my_offset D P 0 = 0 := by rw [my_offset_eq]; simp
      rw [e, ((hW 0 hr).2.2.1 rfl).1 b hb, hS.2.1 b hb]
    · by_cases hl : a = my_size D P r + 1
      · have hrl : r + 1 = P := by
          by_contra hc
          exact c1 ⟨hl, by omega⟩
        have e : my_offset D P (r + 1) = D := by
          rw [hrl]
          exact my_offset_nprocs D P (by omega)
        rw [my_offset_succ] at e
        rw [hl, ((hW r hr).2.2.2 hrl).1 b hb]
        have e2 : my_offset D P r + (my_size D P r + 1) = D + 1 := by omega
        rw [e2, hS.2.2 b hb]
      · exact hR r hr a (by omega) (by omega) b hb

/-- One generation keeps the bands equal to the rows of the serial grid, also
when some ranks own no row. -/
theorem baender_schritt_leer (D P : Nat) (welt w : Nat → Proc) (sp zw : Speicher)
    (hP : 2 ≤ P) (hW : welt_rand_tot D P welt) (hZ : leere_baender_tot D P welt)
    (hS1 : rand_tot D D sp) (hS2 : rand_tot D D zw)
    (hR : baender_gleich D P welt sp) (hw : austausch D P welt = some w) :
    baender_gleich D P (rechnen D P w) (GOL_seriell_update D sp zw) := by
  have halo := halo_gleich_leer D P welt w sp hP hW hZ hS1 hR hw
  have hW2 := welt_rand_austausch D P welt w hP hW hw
  intro r hr i hi1 hi2 j hj
  have hle := my_offset_add_le D P r (by omega) hr
  simp only [rechnen, if_pos hr, GOL_parallel_update, GOL_seriell_update]
  by_cases hin : 1 ≤ j ∧ j ≤ D
  · rw [update_innen _ _ _ _ _ _ hi1 hi2 hin.1 hin.2,
      update_innen _ _ _ _ _ _ (by omega) (by omega) hin.1 hin.2]
    apply regel_verschoben D _ _ _ i j hi1
    intro a b h1 h2 h3
    exact halo r hr (by omega) a (by omega) b (by omega)
  · have hj2 : j = 0 ∨ j = D + 1 := by omega
    rw [update_aussen _ _ _ _ _ _ hj (by omega), update_aussen _ _ _ _ _ _ hj (by omega)]
    have c1 := (hW2 r hr).2.1 i (by omega)
    have c2 := hS2.1 (my_offset D P r + i) (by omega)
    rcases hj2 with h | h <;> rw [h]
    · rw [c1.1, c2.1]
    · rw [c1.2, c2.2]

theorem lauf_daten_succ (D P k : Nat) (s u : Zustand)
    (h : GOL_parallel_lauf_daten D P (k + 1) s = some u) :
    ∃ t w, GOL_parallel_lauf_daten D P k s = some t ∧ austausch D P t.welt = some w ∧
      u = { welt := rechnen D P w, voll := sammeln_daten D P (rechnen D P w) t.voll } := by
  simp only [GOL_parallel_lauf_daten] at h
  cases ht : GOL_parallel_lauf_daten D P k s with
  | none => rw [ht] at h; simp at h
  | some t =>
    rw [ht] at h
    simp only [Option.bind, GOL_parallel_runde_daten] at h
    cases ha : austausch D P t.welt with
    | none => rw [ha] at h; simp at h
    | some w =>
      rw [ha] at h
      simp only [Option.some.injEq] at h
      exact ⟨t, w, rfl, ha, h.symm⟩

/-- With at least two ranks, more or fewer than rows, the run with the assembly
`sammeln_daten` completes every generation; the sentinel cells stay dead, the
lower ghost row of the ranks without rows stays dead, the owned rows are the rows
of the serial grid of the same generation, and so are the rows of the assembled
grid once a generation has run. -/
theorem parallel_daten_gleich_seriell (D P : Nat) (roh : Nat → Proc)
    (roh_voll roh_sp roh_zw : Speicher) (zufall : Nat → Nat → Nat) (hP : 2 ≤ P) :
    ∀ k, ∃ s,
      GOL_parallel_daten D P k roh roh_voll
        (fun r i j => zufall (my_offset D P r + i) j) = some s ∧
      welt_rand_tot D P s.welt ∧ leere_baender_tot D P s.welt ∧
      baender_gleich D P s.welt (GOL_seriell D k roh_sp roh_zw zufall).voll_spielfeld ∧
      (1 ≤ k → ∀ g, 1 ≤ g → g ≤ D → ∀ j, j ≤ D + 1 →
        lies D s.voll (g - 1) j =
          lies D (GOL_seriell D k roh_sp roh_zw zufall).voll_spielfeld g j) := by
  intro k
  induction k with
  | zero =>
    refine ⟨_, rfl, welt_rand_init D P roh roh_voll _, leere_baender_init D P roh roh_voll _,
      baender_init D P roh roh_voll roh_sp roh_zw zufall (by omega), ?_⟩
    intro h
    omega
  | succ k ih =>
    obtain ⟨t, ht, hW, hZ, hR, _⟩ := ih
    obtain ⟨w, hw, _⟩ := austausch_spec D P t.welt hP
    have hS := seriell_rand D roh_sp roh_zw zufall k
    have hR2 : baender_gleich D P (rechnen D P w)
        (GOL_seriell D (k + 1) roh_sp roh_zw zufall).voll_spielfeld :=
      baender_schritt_leer D P t.welt w _ _ hP hW hZ hS.1 hS.2 hR hw
    refine ⟨{ welt := rechnen D P w, voll := sammeln_daten D P (rechnen D P w) t.voll },
      ?_, ?_, ?_, hR2, ?_⟩
    · unfold GOL_parallel_daten at ht ⊢
      simp only [GOL_parallel_lauf_daten, ht, Option.bind, GOL_parallel_runde_daten, hw]
    · exact welt_rand_rechnen D P w (welt_rand_austausch D P t.welt w hP hW hw)
    · exact leere_baender_rechnen D P w (leere_baender_austausch D P t.welt w hP hZ hw)
    · intro _ g hg1 hg2 j hj
      have hlt : g - 1 < my_offset D P P := by
        rw [my_offset_nprocs D P (by omega)]
        omega
      obtain ⟨r, hr, h1, h2⟩ := band_finden D P (g - 1) P hlt
      simp only
      rw [sammeln_daten_lies D P _ t.voll r (g - 1) j hr h1 h2 hj,
        hR2 r hr _ (by omega) (by omega) j hj]
      congr 1
      omega

/-- Where `GOL_parallel` completes, the run with the assembly `sammeln_daten`
reaches the same state. -/
theorem lauf_daten_von_lauf (D P : Nat) (s0 : Zustand) :
    ∀ k s, GOL_parallel_lauf D P k s0 = some s →
      GOL_parallel_lauf_daten D P k s0 = some s := by
  intro k
  induction k with
  | zero => intro s h; exact h
  | succ k ih =>
    intro u hu
    obtain ⟨t, ht, htu⟩ := lauf_succ D P k s0 u hu
    obtain ⟨w, hw, hwelt, hvoll⟩ := runde_zerlegen D P t u htu
    have hv := sammeln_eq_daten D P _ _ _ hvoll
    simp only [GOL_parallel_lauf_daten, ih t ht, Option.bind, GOL_parallel_runde_daten, hw]
    congr 1
    cases u with
    | mk uw uv =>
      simp only at hwelt hv
      rw [hwelt, hv]

/-- C18 (zero-size bands do not disturb the result).  Let `D ≥ 1`, `P > D` and
`N ≥ 1`, with every process seeded with its band of the same initial grid, and
take the run whose assembly is `sammeln_daten`: the receive of a band without
rows stores nothing, wherever the row pointer read for it points.  The update
loops of a rank without rows store nothing.  Rank `D - 1` owns the last row, its
down-neighbour `D` owns none, and in the halo exchange after any number `k` of
generations the lower ghost row rank `D - 1` receives is row `1` of rank `D` and
is `0` in every column.  The run completes `N` generations and cell `(g - 1, j)`
of the assembled grid `voll` equals cell `(g, j)` of the grid of `GOL_seriell`
after `N` generations, for all `1 ≤ g, j ≤ D`. -/
theorem C18_zero_bands (D P N : Nat) (roh : Nat → Proc)
    (roh_voll roh_sp roh_zw : Speicher) (zufall : Nat → Nat → Nat)
    (hD : 1 ≤ D) (hPD : D < P) (hN : 1 ≤ N) :
    (∀ r, r < P → my_size D P r = 0 →
      ∀ sp zw : Speicher, GOL_parallel_update D P r sp zw = zw) ∧
    (my_size D P (D - 1) = 1 ∧ my_size D P D = 0 ∧
      (nachbar_bestimmen P (D - 1)).hole_unten = some D ∧
      ∀ k, ∃ s w,
        GOL_parallel_daten D P k roh roh_voll
          (fun r i j => zufall (my_offset D P r + i) j) = some s ∧
        austausch D P s.welt = some w ∧
        ∀ j, j ≤ D + 1 →
          lies D (w (D - 1)).my_spielfeld (my_size D P (D - 1) + 1) j
            = lies D (s.welt D).my_spielfeld 1 j ∧
          lies D (w (D - 1)).my_spielfeld (my_size D P (D - 1) + 1) j = 0) ∧
    (∃ s,
      GOL_parallel_daten D P N roh roh_voll
        (fun r i j => zufall (my_offset D P r + i) j) = some s ∧
      ∀ g j, 1 ≤ g → g ≤ D → 1 ≤ j → j ≤ D →
        lies D s.voll (g - 1) j =
          lies D (GOL_seriell D N roh_sp roh_zw zufall).voll_spielfeld g j) := by
  have hP : 2 ≤ P := by omega
  have hsD := (my_offset_gross D P hPD).2
  have e : D - 1 + 1 = D := by omega
  refine ⟨?_, ⟨?_, hsD, ?_, ?_⟩, ?_⟩
  · intro r _ h0 sp zw
    unfold GOL_parallel_update
    rw [h0]
    rfl
  · unfold my_size
    rw [Nat.div_eq_of_lt hPD, Nat.mod_eq_of_lt hPD, if_pos (by omega)]
  · rw [nachbar_eq P (D - 1) hP (by omega)]
    simp only
    rw [if_pos (by omega), e]
  · intro k
    obtain ⟨s, hs, _, hZ, _, _⟩ :=
      parallel_daten_gleich_seriell D P roh roh_voll roh_sp roh_zw zufall hP k
    obtain ⟨w, hw, spec⟩ := austausch_spec D P s.welt hP
    refine ⟨s, w, hs, hw, ?_⟩
    intro j hj
    have a : lies D (w (D - 1)).my_spielfeld (my_size D P (D - 1) + 1) j
        = lies D (s.welt D).my_spielfeld 1 j := by
      rw [(spec (D - 1) (by omega)).2 _ j hj, if_pos ⟨rfl, by omega⟩, e]
    exact ⟨a, by rw [a]; exact (hZ D hPD hsD).1 j hj⟩
  · obtain ⟨s, hs, _, _, _, hv⟩ :=
      parallel_daten_gleich_seriell D P roh roh_voll roh_sp roh_zw zufall hP N
    exact ⟨s, hs, fun g j h1 h2 _ h4 => hv hN g h1 h2 j (by omega)⟩

/-- Witness for C18: one row on two ranks, one generation. -/
theorem C18_zero_bands_witness :
    ∃ s,
      GOL_parallel_daten 1 2 1 (fun _ => ⟨fun _ => 7, fun _ => 9⟩) (fun _ => 4)
        (fun r i j => (fun _ _ => 1) (my_offset 1 2 r + i) j) = some s ∧
      ∀ g j, 1 ≤ g → g ≤ 1 → 1 ≤ j → j ≤ 1 →
        lies 1 s.voll (g - 1) j =
          lies 1 (GOL_seriell 1 1 (fun _ => 5) (fun _ => 6) (fun _ _ => 1)).voll_spielfeld g j :=
  (C18_zero_bands 1 2 1 (fun _ => ⟨fun _ => 7, fun _ => 9⟩) (fun _ => 4) (fun _ => 5)
    (fun _ => 6) (fun _ _ => 1) (by decide) (by decide) (by decide)).2.2

end GOL
